import Mathlib

/-!
# Gerrymandering analysis: a shallow embedding of `main.cpp`

The C++ program loads per-district vote tallies and per-state eligible-voter
counts, and reports wasted votes, the efficiency gap and a textual plot.

Conventions of the embedding

* `std::string` is a list of characters (`Str`).
* `ourvector<T>` is a list; `at` fails with `out_of_range` outside the bounds,
  `push_back` appends at the end.
* `int` is the 32-bit two's complement integer: a value of type `int` is an
  integer between `INT_MIN` and `INT_MAX`, and the result of every `int`
  addition and subtraction is reduced into that range by `wrapInt` (the
  wrap-around of the compiled program; `abs(INT_MIN)` is `INT_MIN`).  Division
  of `int`s truncates toward zero.  The tallies stored in a `State` are values
  read by the stream extraction, which never leaves the range.
* Loop counters of type `uint` and the `int` cast of `find` are exact: vectors
  and lines have fewer than `2^31` elements.
* A function that can throw returns a `Run`; loops whose trip count is not
  syntactically bounded carry fuel, and exhausting it is the separate outcome
  `Run.fuel`.
* `double` is binary64 with round-to-nearest-even on rationals, with the
  infinities and NaN.
* Output to `cout` is kept as structured values (`StatsReport`, the bars of
  `PlotDistrictData`, the events of `LoadFiles`); the file system is a function
  from paths to the lines of the file, `none` for a path that cannot be opened.
-/

namespace Gerrymandering

/-! ## Outcomes of a call -/

/-- Outcome of running a function of the program: a normal return, the
`std::out_of_range` exception thrown by `ourvector::at` and
`std::string::substr`, or exhausted fuel. -/
inductive Run (α : Type) where
  | ok : α → Run α
  | out_of_range : Run α
  | fuel : Run α
  deriving DecidableEq, Repr

/-- Sequencing: an exception (or exhausted fuel) propagates. -/
def Run.bind {α β : Type} : Run α → (α → Run β) → Run β
  | .ok a, f => f a
  | .out_of_range, _ => .out_of_range
  | .fuel, _ => .fuel

instance : Monad Run where
  pure := Run.ok
  bind := Run.bind

/-! ## Strings and vectors -/

/-- A `std::string`. -/
abbrev Str := List Char

/-- Modelled from the spec: `ourvector.h` is not part of the sources; the spec
calls it a plain growable sequence with ordered append, index and size.
`ourvector<T>::at(i)` returns the element at index `i` and throws
`out_of_range` when `i` is not below `size()`. -/
def ourvector_at {α : Type} (v : List α) (i : Nat) : Run α :=
  match v.get? i with
  | some a => .ok a
  | none => .out_of_range

/-- The call `ourvector<T>::at` with an `int` index: the index is converted to
an unsigned size, so a negative index is far out of range. -/
def ourvector_at_int {α : Type} (v : List α) (i : Int) : Run α :=
  if 0 ≤ i then ourvector_at v i.toNat else .out_of_range

/-! ## The data model -/

/-- The `struct State`.  The field `eligibleVoters` has no initialiser: it is
`none` until `AppendEligibleVoters` assigns it. -/
structure State where
  stateName : Str
  democraticVotesPerDistrict : List Int
  republicanVotesPerDistrict : List Int
  eligibleVoters : Option Int
  deriving DecidableEq, Repr

/-- A state whose two vote vectors hold the given `(democratic, republican)`
pairs, district by district. -/
def State.ofDistricts (name : Str) (districts : List (Int × Int))
    (voters : Option Int) : State :=
  { stateName := name
    democraticVotesPerDistrict := districts.map Prod.fst
    republicanVotesPerDistrict := districts.map Prod.snd
    eligibleVoters := voters }

/-! ## `StringToLower`, `SplitDelimiter` -/

/-- Function `StringToLower(word)`: `tolower` applied to every character (in the "C"
locale only `A`–`Z` change). -/
def StringToLower (word : Str) : Str := word.map Char.toLower

/-- The call `line.find(delimiter)`: the first position at which `delimiter` occurs in
`line`, `none` for `npos`. -/
def find : Str → Str → Option Nat
  | [], delimiter => if delimiter.isEmpty then some 0 else none
  | c :: rest, delimiter =>
    if delimiter.isPrefixOf (c :: rest) then some 0
    else (find rest delimiter).map fun pos => pos + 1

/-- The call `s.substr(pos, len)`: throws `out_of_range` when `pos > s.size()`,
otherwise the characters from `pos`, at most `len` of them. -/
def substr (s : Str) (pos len : Nat) : Run Str :=
  if pos > s.length then .out_of_range else .ok ((s.drop pos).take len)

/-- The loop of `SplitDelimiter`, with the `find` of the loop condition at the
head of each round.  `int(line.find(delimiter))` is negative exactly for
`npos` (lines are shorter than `2^31` characters).  Each round costs one unit
of fuel. -/
def SplitDelimiter_loop (delimiter : Str) : Nat → Str → List Str → Run (List Str)
  | 0, _, _ => .fuel
  | fuel + 1, line, splitLine =>
    match find line delimiter with
    | none => .ok (splitLine ++ [line])
    | some delimiterPos =>
      match substr line 0 delimiterPos with
      | .ok field =>
        match substr line (delimiterPos + 1) line.length with
        | .ok rest => SplitDelimiter_loop delimiter fuel rest (splitLine ++ [field])
        | .out_of_range => .out_of_range
        | .fuel => .fuel
      | .out_of_range => .out_of_range
      | .fuel => .fuel

/-- Function `SplitDelimiter(line, splitLine, delimiter)`: the result is `splitLine`
after the call.  Every round but the last shortens `line`, so
`line.size() + 1` rounds always suffice. -/
def SplitDelimiter (line : Str) (splitLine : List Str) (delimiter : Str) :
    Run (List Str) :=
  SplitDelimiter_loop delimiter (line.length + 1) line splitLine

/-! ## Formatted extraction from a `stringstream` -/

/-- The constant `INT_MAX` for the 32-bit `int`. -/
def INT_MAX : Int := 2147483647

/-- The constant `INT_MIN` for the 32-bit `int`. -/
def INT_MIN : Int := -2147483648

/-- The value an `int` operation leaves when its mathematical result is `x`:
the representative of `x` modulo `2^32` between `INT_MIN` and `INT_MAX`. -/
def wrapInt (x : Int) : Int := (x + 2147483648) % 4294967296 - 2147483648

/-- A `stringstream` being read: the unread characters and the state bits
`eofbit` and `failbit`. -/
structure StringStream where
  buf : Str
  eof : Bool
  fail : Bool
  deriving DecidableEq, Repr

/-- A fresh `stringstream` into which `text` has been written. -/
def StringStream.ofStr (text : Str) : StringStream :=
  { buf := text, eof := false, fail := false }

/-- The predicate `isspace` in the "C" locale: space, `\t`, `\n`, `\v`, `\f`, `\r`. -/
def isspace (c : Char) : Bool := c.toNat == 32 || (9 ≤ c.toNat && c.toNat ≤ 13)

/-- The predicate `isdigit`: the characters `0` to `9`. -/
def isdigit (c : Char) : Bool := 48 ≤ c.toNat && c.toNat ≤ 57

/-- Value of a decimal digit. -/
def digitValue (c : Char) : Nat := c.toNat - 48

/-- Value of a string of decimal digits. -/
def decimalValue (digits : Str) : Nat :=
  digits.foldl (fun n c => 10 * n + digitValue c) 0

/-- The extraction `ss >> value` for an `int` (C++11 rules).  The second component is the
value written to the variable, `none` when the variable is left untouched.

* If the stream is not `good()`, or only white space is left, the sentry
  fails: `failbit` is set and the variable is untouched.
* Otherwise leading white space is skipped, an optional sign and the longest
  run of digits are read.  Without a digit the variable is set to `0` and
  `failbit` is set; a value outside the `int` range is replaced by `INT_MAX`
  or `INT_MIN` and `failbit` is set. -/
def StringStream.extractInt (ss : StringStream) : StringStream × Option Int :=
  if ss.eof || ss.fail then ({ ss with fail := true }, none)
  else
    match ss.buf.dropWhile isspace with
    | [] => ({ buf := [], eof := true, fail := true }, none)
    | c :: cs =>
      let body := if c == '-' || c == '+' then cs else c :: cs
      let digits := body.takeWhile isdigit
      let after := body.dropWhile isdigit
      if digits.isEmpty then
        ({ buf := after, eof := after.isEmpty, fail := true }, some 0)
      else
        let v : Int := if c == '-' then -(decimalValue digits : Int) else decimalValue digits
        if v > INT_MAX then
          ({ buf := after, eof := after.isEmpty, fail := true }, some INT_MAX)
        else if v < INT_MIN then
          ({ buf := after, eof := after.isEmpty, fail := true }, some INT_MIN)
        else
          ({ buf := after, eof := after.isEmpty, fail := false }, some v)

/-! ## `CreateAndAddState` -/

/-- The loop `for (uint i = 1; i < splitData.size(); i += 3)` of
`CreateAndAddState`, with `n` rounds of fuel left, at index `i`.  `temp` is
the local `int temp`, which lives across the rounds; the `stringstream` is
created anew in every round. -/
def CreateAndAddState_loop (splitData : List Str) : Nat → Nat → Int → State → Run State
  | 0, i, _, state => if i < splitData.length then .fuel else .ok state
  | n + 1, i, temp, state =>
    if i < splitData.length then
      match ourvector_at splitData (i + 1) with
      | .ok first =>
        match ourvector_at splitData (i + 2) with
        | .ok second =>
          let ss := StringStream.ofStr (first ++ ' ' :: second)
          let r1 := ss.extractInt
          let temp1 := r1.2.getD temp
          let r2 := r1.1.extractInt
          let temp2 := r2.2.getD temp1
          CreateAndAddState_loop splitData n (i + 3) temp2
            { state with
              democraticVotesPerDistrict := state.democraticVotesPerDistrict ++ [temp1]
              republicanVotesPerDistrict := state.republicanVotesPerDistrict ++ [temp2] }
        | .out_of_range => .out_of_range
        | .fuel => .fuel
      | .out_of_range => .out_of_range
      | .fuel => .fuel
    else .ok state

/-- Function `CreateAndAddState(data, states)`: the result is `states` after the call.
The local `int temp` is not initialised; `temp` is the value it happens to
hold.  The new `State` has `eligibleVoters` unset.  The loop runs at most
`splitData.size()` rounds. -/
def CreateAndAddState (data : Str) (states : List State) (temp : Int) : Run (List State) :=
  match SplitDelimiter data [] [','] with
  | .ok splitData =>
    match ourvector_at splitData 0 with
    | .ok name =>
      match CreateAndAddState_loop splitData splitData.length 1 temp
          { stateName := name
            democraticVotesPerDistrict := []
            republicanVotesPerDistrict := []
            eligibleVoters := none } with
      | .ok state => .ok (states ++ [state])
      | .out_of_range => .out_of_range
      | .fuel => .fuel
    | .out_of_range => .out_of_range
    | .fuel => .fuel
  | .out_of_range => .out_of_range
  | .fuel => .fuel

/-! ## `FindStateIndex`, `AppendEligibleVoters` -/

/-- The loop `for (uint i = 0; i < states.size(); i++)` of `FindStateIndex`
with `n` iterations left, at index `i`. -/
def FindStateIndex_loop (lowercaseName : Str) (states : List State) : Nat → Nat → Run Int
  | 0, _ => .ok (-1)
  | n + 1, i =>
    match ourvector_at states i with
    | .ok state =>
      if StringToLower state.stateName = lowercaseName then .ok (i : Int)
      else FindStateIndex_loop lowercaseName states n (i + 1)
    | .out_of_range => .out_of_range
    | .fuel => .fuel

/-- Function `FindStateIndex(stateName, states)`: the index of the first state
whose lowercased name equals the lowercased `stateName`, or -1. -/
def FindStateIndex (stateName : Str) (states : List State) : Run Int :=
  FindStateIndex_loop (StringToLower stateName) states states.length 0

/-- Function `AppendEligibleVoters(line, states)`: the result is `states` after the
call.  The local `int voters` is not initialised: it stays unset (`none`) when
the extraction leaves it untouched. -/
def AppendEligibleVoters (line : Str) (states : List State) : Run (List State) :=
  (SplitDelimiter line [] [',']).bind fun splitLine =>
  (ourvector_at splitLine 0).bind fun name =>
  (FindStateIndex name states).bind fun stateIndex =>
  (ourvector_at splitLine 1).bind fun field =>
    let voters := (StringStream.ofStr field).extractInt.2
    if stateIndex ≠ -1 then
      (ourvector_at_int states stateIndex).bind fun state =>
        .ok (states.set stateIndex.toNat { state with eligibleVoters := voters })
    else .ok states

/-! ## `CalcWastedVotes` -/

/-- The three `int&` accumulators of `CalcWastedVotes`. -/
structure Wasted where
  wastedDemocrat : Int
  wastedRepublican : Int
  totalVotes : Int
  deriving DecidableEq, Repr

/-- One iteration of the loop body of `CalcWastedVotes` on the tallies read at
index `i`. -/
def CalcWastedVotes_body (demVotes repVotes : Int) (acc : Wasted) : Wasted :=
  let overHalf := wrapInt (Int.tdiv (wrapInt (demVotes + repVotes)) 2 + 1)
  if demVotes > repVotes then
    { wastedDemocrat := wrapInt (acc.wastedDemocrat + wrapInt (demVotes - overHalf))
      wastedRepublican := wrapInt (acc.wastedRepublican + repVotes)
      totalVotes := wrapInt (acc.totalVotes + wrapInt (demVotes + repVotes)) }
  else
    { wastedDemocrat := wrapInt (acc.wastedDemocrat + demVotes)
      wastedRepublican := wrapInt (acc.wastedRepublican + wrapInt (repVotes - overHalf))
      totalVotes := wrapInt (acc.totalVotes + wrapInt (demVotes + repVotes)) }

/-- The loop `for (uint i = 0; i < democraticVotesPerDistrict.size(); i++)`
with `n` iterations left, at index `i`. -/
def CalcWastedVotes_loop (state : State) : Nat → Nat → Wasted → Run Wasted
  | 0, _, acc => .ok acc
  | n + 1, i, acc =>
    match ourvector_at state.democraticVotesPerDistrict i with
    | .ok demVotes =>
      match ourvector_at state.republicanVotesPerDistrict i with
      | .ok repVotes =>
        CalcWastedVotes_loop state n (i + 1) (CalcWastedVotes_body demVotes repVotes acc)
      | .out_of_range => .out_of_range
      | .fuel => .fuel
    | .out_of_range => .out_of_range
    | .fuel => .fuel

/-- Function `CalcWastedVotes(state, wastedDemocrat, wastedRepublican, totalVotes)`:
the result holds the three reference parameters after the call. -/
def CalcWastedVotes (state : State) (wastedDemocrat wastedRepublican totalVotes : Int) :
    Run Wasted :=
  CalcWastedVotes_loop state state.democraticVotesPerDistrict.length 0
    { wastedDemocrat := wastedDemocrat
      wastedRepublican := wastedRepublican
      totalVotes := totalVotes }

/-! ### Closed forms used in the statements -/

/-- Wasted Democratic votes of one district as the specification words it:
`d - (floor((d+r)/2)+1)` if `d > r`, else `d`. -/
def specWastedDem (p : Int × Int) : Int :=
  if p.1 > p.2 then p.1 - ((p.1 + p.2) / 2 + 1) else p.1

/-- Wasted Republican votes of one district as the specification words it:
`r` if `d > r`, else `r - (floor((d+r)/2)+1)`. -/
def specWastedRep (p : Int × Int) : Int :=
  if p.1 > p.2 then p.2 else p.2 - ((p.1 + p.2) / 2 + 1)

/-- Votes cast in one district. -/
def specVotes (p : Int × Int) : Int := p.1 + p.2

/-! ## The type `double` -/

/-- Round a rational to the nearest integer, ties to the even one. -/
def roundHalfEven (s : ℚ) : ℤ :=
  if s - ⌊s⌋ < 1 / 2 then ⌊s⌋
  else if 1 / 2 < s - ⌊s⌋ then ⌊s⌋ + 1
  else if ⌊s⌋ % 2 = 0 then ⌊s⌋ else ⌊s⌋ + 1

/-- The binary64 value nearest to a rational (53 significant bits). -/
def roundDouble (q : ℚ) : ℚ :=
  if q = 0 then 0
  else (roundHalfEven (q / 2 ^ (Int.log 2 |q| - 52)) : ℚ) * 2 ^ (Int.log 2 |q| - 52)

/-- A `double`: a finite value, an infinity (`true` for the negative one) or a
NaN.  Finite values are the rationals produced by `roundDouble`; exponent
overflow and subnormals are not modelled, since every finite value the program
computes from `int` operands lies far inside the normal range, and zeros carry
no sign (the only zero divisor is the conversion of the `int` 0). -/
inductive Double where
  | finite : ℚ → Double
  | inf : Bool → Double
  | nan : Double
  deriving DecidableEq

/-- Conversion of an `int` to `double`. -/
def Double.ofInt (n : Int) : Double := .finite (roundDouble n)

/-- IEEE multiplication. -/
def Double.mul : Double → Double → Double
  | .finite a, .finite b => .finite (roundDouble (a * b))
  | .finite a, .inf s => if a = 0 then .nan else .inf (xor s (decide (a < 0)))
  | .inf s, .finite b => if b = 0 then .nan else .inf (xor s (decide (b < 0)))
  | .inf s, .inf t => .inf (xor s t)
  | .nan, _ => .nan
  | _, .nan => .nan

/-- IEEE division: a non-zero value divided by zero is an infinity, `0 / 0`
is a NaN. -/
def Double.div : Double → Double → Double
  | .finite a, .finite b =>
    if b = 0 then (if a = 0 then .nan else .inf (decide (a < 0)))
    else .finite (roundDouble (a / b))
  | .finite _, .inf _ => .finite 0
  | .inf s, .finite b => .inf (xor s (decide (b < 0)))
  | .inf _, .inf _ => .nan
  | .nan, _ => .nan
  | _, .nan => .nan

/-- The comparison `x >= y`; false whenever an operand is a NaN. -/
def Double.ge : Double → Double → Bool
  | .finite a, .finite b => decide (b ≤ a)
  | .finite _, .inf s => s
  | .inf s, .finite _ => !s
  | .inf s, .inf t => !s || t
  | .nan, _ => false
  | _, .nan => false

/-- The expression `(1.0 * (abs(wastedDem - wastedRep)) / totalVotes) * 100`
of `PrintStateStats`. -/
def efficiencyGapOf (wastedDem wastedRep totalVotes : Int) : Double :=
  Double.mul
    (Double.div
      (Double.mul (.finite 1) (Double.ofInt (wrapInt |wrapInt (wastedDem - wastedRep)|)))
      (Double.ofInt totalVotes))
    (Double.ofInt 100)

/-! ## `PrintStateStats` -/

/-- The party named on the line `Gerrymandered against:`. -/
inductive Party where
  | Democrats
  | Republicans
  deriving DecidableEq, Repr

/-- The other party. -/
def Party.other : Party → Party
  | .Democrats => .Republicans
  | .Republicans => .Democrats

/-- What `PrintStateStats` writes to `cout`, line by line: `Gerrymandered:
Yes/No`; when gerrymandered, `Gerrymandered against:` and the value printed
after `Efficiency Factor:` (the local `efficiencyGap`, kept here in both
cases); the two wasted-vote lines; the eligible-voter line. -/
structure StatsReport where
  isGerrymandered : Bool
  against : Option Party
  efficiencyGap : Double
  wastedDem : Int
  wastedRep : Int
  eligibleVoters : Option Int
  deriving DecidableEq

/-- Function `PrintStateStats(stateIndex, states)`: the report written for the
state at `stateIndex`. -/
def PrintStateStats (stateIndex : Int) (states : List State) : Run StatsReport :=
  (ourvector_at_int states stateIndex).bind fun state =>
  (CalcWastedVotes state 0 0 0).bind fun w =>
    let efficiencyGap := efficiencyGapOf w.wastedDemocrat w.wastedRepublican w.totalVotes
    let isGerrymandered :=
      Double.ge efficiencyGap (Double.ofInt 7)
        && decide (state.democraticVotesPerDistrict.length ≥ 3)
    .ok { isGerrymandered := isGerrymandered
          against :=
            if isGerrymandered then
              some (if w.wastedDemocrat > w.wastedRepublican then .Democrats else .Republicans)
            else none
          efficiencyGap := efficiencyGap
          wastedDem := w.wastedDemocrat
          wastedRep := w.wastedRepublican
          eligibleVoters := state.eligibleVoters }

/-- The accumulators with the two parties exchanged. -/
def Wasted.swap (w : Wasted) : Wasted :=
  { wastedDemocrat := w.wastedRepublican
    wastedRepublican := w.wastedDemocrat
    totalVotes := w.totalVotes }

/-! ## Lines built from fields -/

/-- The fields written one after the other with the character `c` between
neighbours. -/
def joinFields (c : Char) : List Str → Str
  | [] => []
  | [f] => f
  | f :: g :: fs => f ++ c :: joinFields c (g :: fs)

/-- The integer a decimal numeral denotes: an optional sign `+` or `-`
followed by one or more decimal digits; `none` for every other string. -/
def decimalNumeral? (text : Str) : Option Int :=
  match text with
  | [] => none
  | c :: cs =>
    let digits := if c == '-' || c == '+' then cs else c :: cs
    if digits ≠ [] ∧ digits.all isdigit = true then
      some (if c == '-' then -(decimalValue digits : Int) else decimalValue digits)
    else none

/-- One group of three fields of a tally line: the district label, and the
two vote fields as decimal numerals together with the integers they denote. -/
structure TallyGroup where
  label : Str
  demText : Str
  dem : Int
  repText : Str
  rep : Int
  deriving DecidableEq, Repr

/-- The label holds no comma and both vote fields are decimal numerals of
integers that fit in `int`. -/
def TallyGroup.WellFormed (g : TallyGroup) : Prop :=
  ',' ∉ g.label
    ∧ decimalNumeral? g.demText = some g.dem ∧ INT_MIN ≤ g.dem ∧ g.dem ≤ INT_MAX
    ∧ decimalNumeral? g.repText = some g.rep ∧ INT_MIN ≤ g.rep ∧ g.rep ≤ INT_MAX

instance (g : TallyGroup) : Decidable g.WellFormed := by
  unfold TallyGroup.WellFormed
  infer_instance

/-- The three fields of each group, in line order. -/
def groupFields : List TallyGroup → List Str
  | [] => []
  | g :: gs => g.label :: g.demText :: g.repText :: groupFields gs

/-- The tally line `name,l1,d1,r1,...,ln,dn,rn`. -/
def tallyLine (name : Str) (groups : List TallyGroup) : Str :=
  joinFields ',' (name :: groupFields groups)

/-! ## Example data -/

/-- The state built from the line `Texas,1,600,400,2,300,700,3,500,500`. -/
def texasState : State :=
  { stateName := "Texas".toList
    democraticVotesPerDistrict := [600, 300, 500]
    republicanVotesPerDistrict := [400, 700, 500]
    eligibleVoters := none }

/-- The state built from the line `Texas,1,1,2`. -/
def texasAgain : State :=
  { stateName := "Texas".toList
    democraticVotesPerDistrict := [1]
    republicanVotesPerDistrict := [2]
    eligibleVoters := none }

/-! ## `PlotDistrictData` -/

/-- Conversion of a `double` to `int`: truncation toward zero.  Converting a
value whose truncation is outside the `int` range, an infinity or a NaN is
undefined behaviour in C++; the model gives `INT_MIN` there, the result of the
x86-64 conversion instruction.  For non-negative tallies `PlotDistrictData`
converts a quotient between 0 and 100 only. -/
def Double.toInt : Double → Int
  | .finite q =>
    if INT_MIN ≤ (if 0 ≤ q then ⌊q⌋ else ⌈q⌉) ∧ (if 0 ≤ q then ⌊q⌋ else ⌈q⌉) ≤ INT_MAX then
      (if 0 ≤ q then ⌊q⌋ else ⌈q⌉)
    else INT_MIN
  | .inf _ => INT_MIN
  | .nan => INT_MIN

/-- The loop `for (int j = 0; j < 100; j++)` of `PlotDistrictData` with `n`
iterations left: one character per iteration, `demVoterRatio` going down by
one. -/
def PlotDistrictData_bar : Nat → Int → Str
  | 0, _ => []
  | n + 1, demVoterRatio =>
    (if demVoterRatio > 0 then 'D' else 'R')
      :: PlotDistrictData_bar n (wrapInt (demVoterRatio - 1))

/-- The characters `PlotDistrictData` writes for one district between
`District: i` and the closing `endl`. -/
def PlotDistrictData_line (demVotes repVotes : Int) : Str :=
  if wrapInt (demVotes + repVotes) > 0 then
    PlotDistrictData_bar 100
      (Double.toInt
        (Double.div (Double.mul (.finite 100) (Double.ofInt demVotes))
          (Double.ofInt (wrapInt (demVotes + repVotes)))))
  else []

/-- The loop over the districts of `PlotDistrictData` with `n` iterations
left, at index `i`; every entry of the output is the district number `i + 1`
and the bar written under it. -/
def PlotDistrictData_loop (state : State) :
    Nat → Nat → List (Nat × Str) → Run (List (Nat × Str))
  | 0, _, out => .ok out
  | n + 1, i, out =>
    match ourvector_at state.democraticVotesPerDistrict i with
    | .ok demVotes =>
      match ourvector_at state.republicanVotesPerDistrict i with
      | .ok repVotes =>
        PlotDistrictData_loop state n (i + 1)
          (out ++ [(i + 1, PlotDistrictData_line demVotes repVotes)])
      | .out_of_range => .out_of_range
      | .fuel => .fuel
    | .out_of_range => .out_of_range
    | .fuel => .fuel

/-- Function `PlotDistrictData(stateIndex, states)`: the district numbers and
bars written to `cout`. -/
def PlotDistrictData (stateIndex : Int) (states : List State) : Run (List (Nat × Str)) :=
  (ourvector_at_int states stateIndex).bind fun state =>
    PlotDistrictData_loop state state.democraticVotesPerDistrict.length 0 []

/-- The bar of one district as the specification words it: for `d + r > 0`,
`k = floor(100 * d / (d + r))` characters `D` followed by `100 - k` characters
`R`; nothing for `d + r = 0`. -/
def specBar (p : Int × Int) : Str :=
  if p.1 + p.2 > 0 then
    List.replicate (100 * p.1 / (p.1 + p.2)).toNat 'D'
      ++ List.replicate (100 - (100 * p.1 / (p.1 + p.2)).toNat) 'R'
  else []

/-- The output the specification describes for a region: district numbers
from 1 with the bars of the districts in order. -/
def specPlot : Nat → List (Int × Int) → List (Nat × Str)
  | _, [] => []
  | i, p :: rest => (i + 1, specBar p) :: specPlot (i + 1) rest

/-! ## `LoadFiles` -/

/-- What a call of `LoadFiles` does to the outside: every `inFS.open(path)`
it attempts, and the messages `Reading: path`, `Invalid first file, try
again.` and `Invalid second file, try again.` -/
inductive LoadEvent where
  | tried (path : Str)
  | reading (path : Str)
  | invalidFirst
  | invalidSecond
  deriving DecidableEq, Repr

/-- The reference parameters `dataLoaded` and `states` after a call of
`LoadFiles`, with the events of the call in order. -/
structure LoadOutcome where
  dataLoaded : Bool
  states : List State
  log : List LoadEvent
  deriving DecidableEq, Repr

/-- The loop `while (getline(inFS, line))` of `LoadFiles` for the file at
index `i` of `fileNames`: the lines of the first file go to
`CreateAndAddState`, those of any later file to `AppendEligibleVoters`.
`temp k` is the content of the uninitialised `temp` of `CreateAndAddState` in
the call for line `k`. -/
def LoadFiles_lines (i : Nat) (temp : Nat → Int) : List Str → Nat → List State →
    Run (List State)
  | [], _, states => .ok states
  | line :: rest, k, states =>
    match (if i = 1 then CreateAndAddState line states (temp k)
      else AppendEligibleVoters line states) with
    | .ok states' => LoadFiles_lines i temp rest (k + 1) states'
    | .out_of_range => .out_of_range
    | .fuel => .fuel

/-- The loop `for (uint i = 1; i < fileNames.size(); i++)` of `LoadFiles` with
`n` iterations left, at index `i`.  `fs path` is `none` when `path` cannot be
opened and the lines of the file otherwise. -/
def LoadFiles_loop (fs : Str → Option (List Str)) (temp : Nat → Int)
    (fileNames : List Str) : Nat → Nat → LoadOutcome → Run LoadOutcome
  | 0, _, acc => .ok acc
  | n + 1, i, acc =>
    match ourvector_at fileNames i with
    | .ok path =>
      match fs path with
      | none =>
        .ok { dataLoaded := false
              states := acc.states
              log := acc.log ++ [LoadEvent.tried path]
                ++ (if i = 1 then [LoadEvent.invalidFirst]
                    else if i = 2 then [LoadEvent.invalidSecond] else []) }
      | some lines =>
        match LoadFiles_lines i temp lines 0 acc.states with
        | .ok states' =>
          LoadFiles_loop fs temp fileNames n (i + 1)
            { dataLoaded := true
              states := states'
              log := acc.log ++ [LoadEvent.tried path, LoadEvent.reading path] }
        | .out_of_range => .out_of_range
        | .fuel => .fuel
    | .out_of_range => .out_of_range
    | .fuel => .fuel

/-- Function `LoadFiles(dataLoaded, fileNames, states)` in a file system `fs`;
`fileNames` is the split command line, so the paths start at index 1. -/
def LoadFiles (fs : Str → Option (List Str)) (temp : Nat → Int) (dataLoaded : Bool)
    (fileNames : List Str) (states : List State) : Run LoadOutcome :=
  LoadFiles_loop fs temp fileNames (fileNames.length - 1) 1
    { dataLoaded := dataLoaded, states := states, log := [] }

/-! ## Reachable registries -/

/-- The registries the program can build: the empty one, and those obtained
from a reachable one by a call of `CreateAndAddState` or of
`AppendEligibleVoters` that returns normally. -/
inductive Reachable : List State → Prop where
  | empty : Reachable []
  | create (states : List State) (data : Str) (temp : Int) (result : List State) :
      Reachable states → CreateAndAddState data states temp = .ok result → Reachable result
  | append (states : List State) (line : Str) (result : List State) :
      Reachable states → AppendEligibleVoters line states = .ok result → Reachable result

/-- A file system with the tally file `districts.txt` holding the Texas line
and no other file. -/
def onlyDistricts (path : Str) : Option (List Str) :=
  if path = "districts.txt".toList then
    some ["Texas,1,600,400,2,300,700,3,500,500".toList]
  else none

/-! ## Names up to letter case -/

/-- Two characters that are equal, or the same ASCII letter in upper and in
lower case (`A`–`Z` are the codes 65 to 90, the lower-case letter is 32 codes
above its upper-case letter). -/
def sameLetter (a b : Char) : Prop :=
  a = b
    ∨ (65 ≤ a.toNat ∧ a.toNat ≤ 90 ∧ b.toNat = a.toNat + 32)
    ∨ (65 ≤ b.toNat ∧ b.toNat ≤ 90 ∧ a.toNat = b.toNat + 32)

/-- Equality of two whole strings up to letter case: the same length, and
position by position the same letter. -/
def sameName : Str → Str → Prop
  | [], [] => True
  | a :: x, b :: y => sameLetter a b ∧ sameName x y
  | [], _ :: _ => False
  | _ :: _, [] => False

/-! # Lemmas and theorems -/

/-! ## Lemmas on `CalcWastedVotes` -/

theorem ourvector_at_cons_succ {α : Type} (a : α) (v : List α) (i : Nat) :
    ourvector_at (a :: v) (i + 1) = ourvector_at v i := by
  simp [ourvector_at]

theorem ourvector_at_append_length {α : Type} (u : List α) (a : α) (v : List α) :
    ourvector_at (u ++ a :: v) u.length = .ok a := by
  induction u with
  | nil => simp [ourvector_at]
  | cons b u ih => simpa [ourvector_at] using ih

/-- The loop started at index `done.length` on the state `done ++ rest`
folds the body over `rest`. -/
theorem CalcWastedVotes_loop_eq (name : Str) (voters : Option Int)
    (rest done : List (Int × Int)) (acc : Wasted) :
    CalcWastedVotes_loop (State.ofDistricts name (done ++ rest) voters)
        rest.length done.length acc
      = .ok (rest.foldl (fun a p => CalcWastedVotes_body p.1 p.2 a) acc) := by
  induction rest generalizing done acc with
  | nil => simp [CalcWastedVotes_loop]
  | cons p rest ih =>
    have h1 : ourvector_at (State.ofDistricts name (done ++ p :: rest) voters).democraticVotesPerDistrict
        done.length = .ok p.1 := by
      have := ourvector_at_append_length (done.map Prod.fst) p.1 (rest.map Prod.fst)
      simpa [State.ofDistricts] using this
    have h2 : ourvector_at (State.ofDistricts name (done ++ p :: rest) voters).republicanVotesPerDistrict
        done.length = .ok p.2 := by
      have := ourvector_at_append_length (done.map Prod.snd) p.2 (rest.map Prod.snd)
      simpa [State.ofDistricts] using this
    have h3 := ih (done ++ [p]) (CalcWastedVotes_body p.1 p.2 acc)
    simp only [List.append_assoc, List.singleton_append, List.length_append,
      List.length_singleton] at h3
    simp only [List.length_cons, CalcWastedVotes_loop, h1, h2, List.foldl_cons]
    exact h3

/-- On a state built from district pairs, `CalcWastedVotes` returns normally
with the fold of the loop body over the districts. -/
theorem CalcWastedVotes_ofDistricts (name : Str) (voters : Option Int)
    (districts : List (Int × Int)) (a b c : Int) :
    CalcWastedVotes (State.ofDistricts name districts voters) a b c
      = .ok (districts.foldl (fun w p => CalcWastedVotes_body p.1 p.2 w)
          { wastedDemocrat := a, wastedRepublican := b, totalVotes := c }) := by
  have h := CalcWastedVotes_loop_eq name voters districts []
    { wastedDemocrat := a, wastedRepublican := b, totalVotes := c }
  simpa [CalcWastedVotes, State.ofDistricts] using h

/-- An `int` result that fits in the range is not changed by the wrap-around. -/
theorem wrapInt_of_fits (x : Int) (h1 : INT_MIN ≤ x) (h2 : x ≤ INT_MAX) : wrapInt x = x := by
  unfold wrapInt
  unfold INT_MIN at h1
  unfold INT_MAX at h2
  omega

/-- Every `int` result lies in the range. -/
theorem wrapInt_fits (x : Int) : INT_MIN ≤ wrapInt x ∧ wrapInt x ≤ INT_MAX := by
  unfold wrapInt INT_MIN INT_MAX
  omega

/-- Truncating division by two agrees with the floor when the dividend is not
negative. -/
theorem tdiv_two_of_nonneg (x : Int) (h : 0 ≤ x) : Int.tdiv x 2 = x / 2 := by
  rw [Int.tdiv_eq_ediv h (by norm_num)]

theorem specWasted_bounds (p : Int × Int) (hd : 0 ≤ p.1) (hr : 0 ≤ p.2) :
    0 ≤ specWastedDem p ∧ specWastedDem p ≤ p.1 + p.2
      ∧ -1 ≤ specWastedRep p ∧ specWastedRep p ≤ p.1 + p.2 := by
  unfold specWastedDem specWastedRep
  by_cases hlt : p.1 > p.2
  · simp only [hlt, if_true]
    refine ⟨by omega, by omega, by omega, by omega⟩
  · simp only [hlt, if_false]
    refine ⟨by omega, by omega, by omega, by omega⟩

theorem specVotes_sum_nonneg (districts : List (Int × Int))
    (hnn : ∀ p ∈ districts, 0 ≤ p.1 ∧ 0 ≤ p.2) : 0 ≤ (districts.map specVotes).sum := by
  induction districts with
  | nil => simp
  | cons p rest ih =>
    have hp := hnn p (List.mem_cons_self _ _)
    have := ih (fun q hq => hnn q (List.mem_cons_of_mem _ hq))
    simp only [List.map_cons, List.sum_cons, specVotes]
    omega

/-- One iteration of the loop body adds the per-district terms of the
specification when the tallies are not negative and neither the district total
nor the new accumulators leave the `int` range. -/
theorem CalcWastedVotes_body_spec (p : Int × Int) (hd : 0 ≤ p.1) (hr : 0 ≤ p.2)
    (acc : Wasted)
    (h1 : 0 ≤ acc.wastedDemocrat) (h1' : acc.wastedDemocrat + (p.1 + p.2) ≤ INT_MAX)
    (h2 : INT_MIN + 1 ≤ acc.wastedRepublican)
    (h2' : acc.wastedRepublican + (p.1 + p.2) ≤ INT_MAX)
    (h3 : INT_MIN ≤ acc.totalVotes) (h3' : acc.totalVotes + (p.1 + p.2) ≤ INT_MAX) :
    CalcWastedVotes_body p.1 p.2 acc
      = { wastedDemocrat := acc.wastedDemocrat + specWastedDem p
          wastedRepublican := acc.wastedRepublican + specWastedRep p
          totalVotes := acc.totalVotes + specVotes p } := by
  have hI : INT_MAX = 2147483647 := rfl
  have hJ : INT_MIN = -2147483648 := rfl
  rw [hI] at h1' h2' h3'
  rw [hJ] at h2 h3
  have hs : wrapInt (p.1 + p.2) = p.1 + p.2 :=
    wrapInt_of_fits _ (by rw [hJ]; omega) (by rw [hI]; omega)
  have hh : wrapInt ((p.1 + p.2) / 2 + 1) = (p.1 + p.2) / 2 + 1 :=
    wrapInt_of_fits _ (by rw [hJ]; omega) (by rw [hI]; omega)
  unfold CalcWastedVotes_body specWastedDem specWastedRep specVotes
  simp only [hs, tdiv_two_of_nonneg _ (add_nonneg hd hr), hh]
  by_cases hlt : p.1 > p.2
  · simp only [hlt, if_true]
    rw [wrapInt_of_fits (p.1 - ((p.1 + p.2) / 2 + 1)) (by rw [hJ]; omega) (by rw [hI]; omega),
      wrapInt_of_fits (acc.wastedDemocrat + _) (by rw [hJ]; omega) (by rw [hI]; omega),
      wrapInt_of_fits (acc.wastedRepublican + _) (by rw [hJ]; omega) (by rw [hI]; omega),
      wrapInt_of_fits (acc.totalVotes + _) (by rw [hJ]; omega) (by rw [hI]; omega)]
  · simp only [hlt, if_false]
    rw [wrapInt_of_fits (p.2 - ((p.1 + p.2) / 2 + 1)) (by rw [hJ]; omega) (by rw [hI]; omega),
      wrapInt_of_fits (acc.wastedDemocrat + _) (by rw [hJ]; omega) (by rw [hI]; omega),
      wrapInt_of_fits (acc.wastedRepublican + _) (by rw [hJ]; omega) (by rw [hI]; omega),
      wrapInt_of_fits (acc.totalVotes + _) (by rw [hJ]; omega) (by rw [hI]; omega)]

/-- Folding the loop body over districts with non-negative tallies adds the
three sums of the specification to the accumulators, as long as the
accumulators stay in the `int` range. -/
theorem CalcWastedVotes_fold_spec (districts : List (Int × Int))
    (hnn : ∀ p ∈ districts, 0 ≤ p.1 ∧ 0 ≤ p.2) (acc : Wasted)
    (h1 : 0 ≤ acc.wastedDemocrat)
    (h1' : acc.wastedDemocrat + (districts.map specVotes).sum ≤ INT_MAX)
    (h2 : INT_MIN + districts.length ≤ acc.wastedRepublican)
    (h2' : acc.wastedRepublican + (districts.map specVotes).sum ≤ INT_MAX)
    (h3 : INT_MIN ≤ acc.totalVotes)
    (h3' : acc.totalVotes + (districts.map specVotes).sum ≤ INT_MAX) :
    districts.foldl (fun w p => CalcWastedVotes_body p.1 p.2 w) acc
      = { wastedDemocrat := acc.wastedDemocrat + (districts.map specWastedDem).sum
          wastedRepublican := acc.wastedRepublican + (districts.map specWastedRep).sum
          totalVotes := acc.totalVotes + (districts.map specVotes).sum } := by
  induction districts generalizing acc with
  | nil => simp
  | cons p rest ih =>
    obtain ⟨hd, hr⟩ := hnn p (List.mem_cons_self _ _)
    have hrest : ∀ q ∈ rest, 0 ≤ q.1 ∧ 0 ≤ q.2 := fun q hq => hnn q (List.mem_cons_of_mem _ hq)
    have hsum := specVotes_sum_nonneg rest hrest
    obtain ⟨b1, b2, b3, b4⟩ := specWasted_bounds p hd hr
    simp only [List.map_cons, List.sum_cons, List.length_cons, Nat.cast_add, Nat.cast_one]
      at h1' h2 h2' h3' ⊢
    have hv : specVotes p = p.1 + p.2 := rfl
    rw [hv] at h1' h2' h3'
    rw [List.foldl_cons,
      CalcWastedVotes_body_spec p hd hr acc h1 (by omega) (by omega) (by omega) h3 (by omega),
      ih hrest]
    · simp only [add_assoc]
    all_goals (simp only; omega)

/-- Closed form of `CalcWastedVotes` from zeroed accumulators on a region with
non-negative tallies, at most `2^31` districts and at most `INT_MAX` votes in
all. -/
theorem CalcWastedVotes_sums (name : Str) (voters : Option Int)
    (districts : List (Int × Int)) (hnn : ∀ p ∈ districts, 0 ≤ p.1 ∧ 0 ≤ p.2)
    (htot : (districts.map specVotes).sum ≤ INT_MAX)
    (hlen : districts.length ≤ 2147483648) :
    CalcWastedVotes (State.ofDistricts name districts voters) 0 0 0
      = .ok { wastedDemocrat := (districts.map specWastedDem).sum
              wastedRepublican := (districts.map specWastedRep).sum
              totalVotes := (districts.map specVotes).sum } := by
  have hJ : INT_MIN = -2147483648 := rfl
  rw [CalcWastedVotes_ofDistricts, CalcWastedVotes_fold_spec districts hnn]
  · simp
  · exact le_refl 0
  · simpa using htot
  · simp only [hJ]; omega
  · simpa using htot
  · simp only [hJ]; omega
  · simpa using htot

/-! ## C1: closed form of `CalcWastedVotes` -/

/-- C1 (counterexample): on the one-district region `(2147483647, 1)` the
`int` sum `d + r` wraps to `-2147483648`, `overHalf` is `-1073741823`, and
the call returns wastedDemocratic = -1073741826 and totalVotes = -2147483648,
whereas the closed form gives 1073741822 and 2147483648. -/
theorem C1_counterexample :
    CalcWastedVotes (State.ofDistricts [] [(2147483647, 1)] none) 0 0 0
        = .ok { wastedDemocrat := -1073741826, wastedRepublican := 1,
                totalVotes := -2147483648 }
      ∧ CalcWastedVotes (State.ofDistricts [] [(2147483647, 1)] none) 0 0 0
        ≠ .ok { wastedDemocrat :=
                  ([((2147483647 : Int), (1 : Int))].map specWastedDem).sum
                wastedRepublican :=
                  ([((2147483647 : Int), (1 : Int))].map specWastedRep).sum
                totalVotes := ([((2147483647 : Int), (1 : Int))].map specVotes).sum } := by
  decide

/-- C1 (amended): for every region with non-negative tallies, at most `2^31`
districts and at most `INT_MAX = 2147483647` votes in all (the sum of `d + r`
over the districts), so that no `int` operation overflows, `CalcWastedVotes`
called with the three accumulators at 0 returns normally with
wastedDemocratic = sum of (`d - (floor((d+r)/2)+1)` if `d > r`, else `d`),
wastedRepublican = sum of (`r` if `d > r`, else `r - (floor((d+r)/2)+1)`) and
totalVotes = sum of `d + r`. -/
theorem C1_CalcWastedVotes_closed_form (name : Str) (voters : Option Int)
    (districts : List (Int × Int)) (hnn : ∀ p ∈ districts, 0 ≤ p.1 ∧ 0 ≤ p.2)
    (htot : (districts.map specVotes).sum ≤ INT_MAX)
    (hlen : districts.length ≤ 2147483648) :
    CalcWastedVotes (State.ofDistricts name districts voters) 0 0 0
      = .ok { wastedDemocrat := (districts.map specWastedDem).sum
              wastedRepublican := (districts.map specWastedRep).sum
              totalVotes := (districts.map specVotes).sum } :=
  CalcWastedVotes_sums name voters districts hnn htot hlen

/-- C1 (witness): the amended closed form at the region
`(600,400), (300,700), (500,500)`. -/
theorem C1_CalcWastedVotes_closed_form_witness :
    (∀ p ∈ [((600 : Int), (400 : Int)), (300, 700), (500, 500)], 0 ≤ p.1 ∧ 0 ≤ p.2)
      ∧ ([((600 : Int), (400 : Int)), (300, 700), (500, 500)].map specVotes).sum ≤ INT_MAX
      ∧ CalcWastedVotes
          (State.ofDistricts [] [(600, 400), (300, 700), (500, 500)] none) 0 0 0
        = .ok { wastedDemocrat :=
                  ([((600 : Int), (400 : Int)), (300, 700), (500, 500)].map specWastedDem).sum
                wastedRepublican :=
                  ([((600 : Int), (400 : Int)), (300, 700), (500, 500)].map specWastedRep).sum
                totalVotes :=
                  ([((600 : Int), (400 : Int)), (300, 700), (500, 500)].map specVotes).sum } :=
  ⟨by decide, by decide,
    C1_CalcWastedVotes_closed_form [] none _ (by decide) (by decide) (by decide)⟩

/-! ## C2: bounds for a single district -/

/-- C2 (counterexample): the tied district `(1, 1)` has non-negative tallies
and `d + r > 0`, yet `CalcWastedVotes` yields `wastedRepublican = -1`; and on
`(2147483647, 1)`, whose sum does not fit in `int`, it yields
`wastedDemocratic = -1073741826`. -/
theorem C2_counterexample :
    (¬ (∀ d r : Int, 0 ≤ d → 0 ≤ r → 0 < d + r →
        ∀ w, CalcWastedVotes (State.ofDistricts [] [(d, r)] none) 0 0 0 = .ok w →
          0 ≤ w.wastedDemocrat ∧ 0 ≤ w.wastedRepublican
            ∧ w.wastedDemocrat + w.wastedRepublican ≤ d + r))
    ∧ CalcWastedVotes (State.ofDistricts [] [(1, 1)] none) 0 0 0
        = .ok { wastedDemocrat := 1, wastedRepublican := -1, totalVotes := 2 }
    ∧ CalcWastedVotes (State.ofDistricts [] [(2147483647, 1)] none) 0 0 0
        = .ok { wastedDemocrat := -1073741826, wastedRepublican := 1,
                totalVotes := -2147483648 } := by
  refine ⟨?_, by decide, by decide⟩
  intro h
  have := (h 1 1 (by decide) (by decide) (by decide)
    { wastedDemocrat := 1, wastedRepublican := -1, totalVotes := 2 } (by decide)).2.1
  exact absurd this (by decide)

/-- C2 (amended): for non-negative `d`, `r` with `d + r > 0` and `d + r` at
most `INT_MAX`, `CalcWastedVotes` over the single district `(d, r)` returns
normally with wastedDemocratic >= 0 and wastedDemocratic + wastedRepublican <=
d + r; wastedRepublican >= 0 holds exactly when the district is not tied
(`d ≠ r`). -/
theorem C2_single_district_bounds (name : Str) (voters : Option Int) (d r : Int)
    (hd : 0 ≤ d) (hr : 0 ≤ r) (hpos : 0 < d + r) (hfit : d + r ≤ INT_MAX) :
    ∃ w, CalcWastedVotes (State.ofDistricts name [(d, r)] voters) 0 0 0 = .ok w
      ∧ 0 ≤ w.wastedDemocrat
      ∧ w.wastedDemocrat + w.wastedRepublican ≤ d + r
      ∧ (0 ≤ w.wastedRepublican ↔ d ≠ r) := by
  refine ⟨_, CalcWastedVotes_sums name voters [(d, r)] ?_ ?_ (by simp), ?_⟩
  · intro p hp
    simp only [List.mem_singleton] at hp
    subst hp
    exact ⟨hd, hr⟩
  · simpa [specVotes] using hfit
  · simp only [List.map_cons, List.map_nil, List.sum_cons, List.sum_nil, add_zero,
      specWastedDem, specWastedRep]
    by_cases hlt : d > r
    · simp only [hlt, if_true]
      refine ⟨by omega, by omega, ?_⟩
      constructor
      · intro _; omega
      · intro _; exact hr
    · simp only [hlt, if_false]
      refine ⟨hd, by omega, ?_⟩
      constructor
      · intro h1; omega
      · intro h1; omega

/-- C2 (witness): the amended bounds at the district `(600, 400)`. -/
theorem C2_single_district_bounds_witness :
    (0 : Int) ≤ 600 ∧ (0 : Int) ≤ 400 ∧ (0 : Int) < 600 + 400
      ∧ (600 : Int) + 400 ≤ INT_MAX
      ∧ ∃ w, CalcWastedVotes (State.ofDistricts [] [(600, 400)] none) 0 0 0 = .ok w
        ∧ 0 ≤ w.wastedDemocrat
        ∧ w.wastedDemocrat + w.wastedRepublican ≤ 600 + 400
        ∧ (0 ≤ w.wastedRepublican ↔ (600 : Int) ≠ 400) :=
  ⟨by decide, by decide, by decide, by decide,
    C2_single_district_bounds [] none 600 400 (by decide) (by decide) (by decide)
      (by decide)⟩

/-! ## C3: the tied district 5/5 -/

/-- C3 (counterexample): on the tied district `(5, 5)` the call does not
return wastedDemocratic = 5 with wastedRepublican = 2, whatever the total. -/
theorem C3_counterexample :
    ¬ ∃ total : Int, CalcWastedVotes (State.ofDistricts [] [(5, 5)] none) 0 0 0
        = .ok { wastedDemocrat := 5, wastedRepublican := 2, totalVotes := total } := by
  rintro ⟨total, h⟩
  have h2 : CalcWastedVotes (State.ofDistricts [] [(5, 5)] none) 0 0 0
      = .ok { wastedDemocrat := 5, wastedRepublican := -1, totalVotes := 10 } := by decide
  rw [h2] at h
  injection h with h
  injection h with _ h _
  exact absurd h (by decide)

/-- C3 (amended): on the tied district `d = r = 5` the comparison `d > r`
fails, so the `else` branch (the Republican win) is taken: wastedDemocratic
= 5 and wastedRepublican = 5 - (floor(10/2) + 1) = -1, with totalVotes = 10. -/
theorem C3_tie_five_five (name : Str) (voters : Option Int) :
    CalcWastedVotes (State.ofDistricts name [(5, 5)] voters) 0 0 0
      = .ok { wastedDemocrat := 5, wastedRepublican := -1, totalVotes := 10 }
    ∧ (-1 : Int) = 5 - (10 / 2 + 1) := by
  refine ⟨?_, by decide⟩
  rw [CalcWastedVotes_ofDistricts]
  decide

/-! ## Lemmas on `double` rounding -/

theorem roundHalfEven_intCast (n : ℤ) : roundHalfEven (n : ℚ) = n := by
  simp [roundHalfEven]

theorem floor_le_roundHalfEven (s : ℚ) : ⌊s⌋ ≤ roundHalfEven s := by
  unfold roundHalfEven
  split_ifs <;> omega

theorem roundHalfEven_le_floor_succ (s : ℚ) : roundHalfEven s ≤ ⌊s⌋ + 1 := by
  unfold roundHalfEven
  split_ifs <;> omega

theorem roundHalfEven_mono {x y : ℚ} (h : x ≤ y) : roundHalfEven x ≤ roundHalfEven y := by
  have hf : ⌊x⌋ ≤ ⌊y⌋ := Int.floor_mono h
  rcases lt_or_eq_of_le hf with hlt | heq
  · calc roundHalfEven x ≤ ⌊x⌋ + 1 := roundHalfEven_le_floor_succ x
      _ ≤ ⌊y⌋ := hlt
      _ ≤ roundHalfEven y := floor_le_roundHalfEven y
  · unfold roundHalfEven
    rw [heq]
    have hxy : x - ⌊y⌋ ≤ y - ⌊y⌋ := by linarith
    split_ifs <;> first | omega | (exfalso; linarith)

/-- The scaled significand lies in `[2^52, 2^53)`. -/
theorem scaled_bounds {q : ℚ} (hq : 0 < q) :
    (2 : ℚ) ^ (52 : ℤ) ≤ q / 2 ^ (Int.log 2 q - 52)
      ∧ q / 2 ^ (Int.log 2 q - 52) < (2 : ℚ) ^ (53 : ℤ) := by
  have h2 : (0 : ℚ) < 2 := by norm_num
  have hpos : (0 : ℚ) < 2 ^ (Int.log 2 q - 52) := zpow_pos h2 _
  have hlo : ((2 : ℕ) : ℚ) ^ Int.log 2 q ≤ q := Int.zpow_log_le_self (by norm_num) hq
  have hhi : q < ((2 : ℕ) : ℚ) ^ (Int.log 2 q + 1) := Int.lt_zpow_succ_log_self (by norm_num) q
  simp only [Nat.cast_ofNat] at hlo hhi
  constructor
  · rw [le_div_iff₀ hpos, ← zpow_add₀ (ne_of_gt h2)]
    simpa using hlo
  · rw [div_lt_iff₀ hpos, ← zpow_add₀ (ne_of_gt h2)]
    have : (53 : ℤ) + (Int.log 2 q - 52) = Int.log 2 q + 1 := by ring
    rw [this]
    exact hhi

theorem roundDouble_pos_eq {q : ℚ} (hq : 0 < q) :
    roundDouble q
      = (roundHalfEven (q / 2 ^ (Int.log 2 q - 52)) : ℚ) * 2 ^ (Int.log 2 q - 52) := by
  unfold roundDouble
  rw [if_neg (ne_of_gt hq), abs_of_pos hq]

theorem roundDouble_mono_pos {x y : ℚ} (hx : 0 < x) (h : x ≤ y) :
    roundDouble x ≤ roundDouble y := by
  have hy : 0 < y := lt_of_lt_of_le hx h
  have h2 : (0 : ℚ) < 2 := by norm_num
  rw [roundDouble_pos_eq hx, roundDouble_pos_eq hy]
  have he : Int.log 2 x ≤ Int.log 2 y := Int.log_mono_right hx h
  obtain ⟨hxlo, hxhi⟩ := scaled_bounds hx
  obtain ⟨hylo, hyhi⟩ := scaled_bounds hy
  rcases lt_or_eq_of_le he with hlt | heq
  · have h1 : roundHalfEven (x / 2 ^ (Int.log 2 x - 52)) ≤ 2 ^ 53 := by
      have := roundHalfEven_mono (le_of_lt hxhi)
      have h53 : ((2 : ℚ) ^ (53 : ℤ)) = (((2 : ℤ) ^ 53 : ℤ) : ℚ) := by norm_num
      rw [h53, roundHalfEven_intCast] at this
      exact this
    have h3 : (2 : ℤ) ^ 52 ≤ roundHalfEven (y / 2 ^ (Int.log 2 y - 52)) := by
      have := roundHalfEven_mono hylo
      have h52 : ((2 : ℚ) ^ (52 : ℤ)) = (((2 : ℤ) ^ 52 : ℤ) : ℚ) := by norm_num
      rw [h52, roundHalfEven_intCast] at this
      exact this
    have h1q : (roundHalfEven (x / 2 ^ (Int.log 2 x - 52)) : ℚ) ≤ 2 ^ (53 : ℤ) := by
      have : (roundHalfEven (x / 2 ^ (Int.log 2 x - 52)) : ℚ) ≤ ((2 ^ 53 : ℤ) : ℚ) :=
        Int.cast_le.mpr h1
      calc _ ≤ _ := this
        _ = _ := by norm_num
    have h3q : (2 : ℚ) ^ (52 : ℤ) ≤ (roundHalfEven (y / 2 ^ (Int.log 2 y - 52)) : ℚ) := by
      have : ((2 ^ 52 : ℤ) : ℚ) ≤ (roundHalfEven (y / 2 ^ (Int.log 2 y - 52)) : ℚ) :=
        Int.cast_le.mpr h3
      calc _ = _ := by norm_num
        _ ≤ _ := this
    have hpx : (0 : ℚ) < 2 ^ (Int.log 2 x - 52) := zpow_pos h2 _
    have hpy : (0 : ℚ) < 2 ^ (Int.log 2 y - 52) := zpow_pos h2 _
    calc (roundHalfEven (x / 2 ^ (Int.log 2 x - 52)) : ℚ) * 2 ^ (Int.log 2 x - 52)
        ≤ 2 ^ (53 : ℤ) * 2 ^ (Int.log 2 x - 52) := mul_le_mul_of_nonneg_right h1q (le_of_lt hpx)
      _ = 2 ^ (Int.log 2 x + 1) := by
          rw [← zpow_add₀ (ne_of_gt h2)]; congr 1; ring
      _ ≤ 2 ^ (Int.log 2 y) := zpow_le_zpow_right₀ (by norm_num) (by omega)
      _ = 2 ^ (52 : ℤ) * 2 ^ (Int.log 2 y - 52) := by
          rw [← zpow_add₀ (ne_of_gt h2)]; congr 1; ring
      _ ≤ (roundHalfEven (y / 2 ^ (Int.log 2 y - 52)) : ℚ) * 2 ^ (Int.log 2 y - 52) :=
          mul_le_mul_of_nonneg_right h3q (le_of_lt hpy)
  · rw [← heq]
    have hpx : (0 : ℚ) < 2 ^ (Int.log 2 x - 52) := zpow_pos h2 _
    apply mul_le_mul_of_nonneg_right _ (le_of_lt hpx)
    exact Int.cast_le.mpr (roundHalfEven_mono (div_le_div_of_nonneg_right h (le_of_lt hpx)))

/-- A positive integer below `2^53` scaled by a power of two is a binary64
value: rounding leaves it unchanged. -/
theorem roundDouble_exact (m k : ℤ) (hm0 : 0 < m) (hm : m < 2 ^ 53) :
    roundDouble ((m : ℚ) * 2 ^ k) = (m : ℚ) * 2 ^ k := by
  have h2 : (0 : ℚ) < 2 := by norm_num
  have h2ne : (2 : ℚ) ≠ 0 := ne_of_gt h2
  have hmq : (0 : ℚ) < m := Int.cast_pos.mpr hm0
  have hq : (0 : ℚ) < (m : ℚ) * 2 ^ k := mul_pos hmq (zpow_pos h2 _)
  have hlt : (m : ℚ) * 2 ^ k < ((2 : ℕ) : ℚ) ^ (53 + k) := by
    have hm' : (m : ℚ) < 2 ^ (53 : ℤ) := by
      have : (m : ℚ) < ((2 ^ 53 : ℤ) : ℚ) := Int.cast_lt.mpr hm
      calc _ < _ := this
        _ = _ := by norm_num
    simp only [Nat.cast_ofNat]
    rw [zpow_add₀ h2ne]
    exact mul_lt_mul_of_pos_right hm' (zpow_pos h2 _)
  have hL : Int.log 2 ((m : ℚ) * 2 ^ k) < 53 + k :=
    (Int.lt_zpow_iff_log_lt (by norm_num) hq).mp hlt
  rw [roundDouble_pos_eq hq]
  obtain ⟨n, hn⟩ : ∃ n : ℕ, k - (Int.log 2 ((m : ℚ) * 2 ^ k) - 52) = n :=
    ⟨(k - (Int.log 2 ((m : ℚ) * 2 ^ k) - 52)).toNat, by omega⟩
  have hk : k = (n : ℤ) + (Int.log 2 ((m : ℚ) * 2 ^ k) - 52) := by omega
  generalize Int.log 2 ((m : ℚ) * 2 ^ k) - 52 = e at hn hk ⊢
  subst hk
  have hs : (m : ℚ) * 2 ^ ((n : ℤ) + e) / 2 ^ e = ((m * 2 ^ n : ℤ) : ℚ) := by
    rw [zpow_add₀ h2ne, ← mul_assoc, mul_div_assoc, div_self (ne_of_gt (zpow_pos h2 e)), mul_one]
    push_cast
    rw [zpow_natCast]
  rw [hs, roundHalfEven_intCast, zpow_add₀ h2ne]
  push_cast
  rw [zpow_natCast]
  ring

theorem roundDouble_zero : roundDouble 0 = 0 := by
  simp [roundDouble]

/-- Every non-negative `int` below `2^53` converts to `double` exactly. -/
theorem roundDouble_intCast (n : ℤ) (h0 : 0 ≤ n) (h : n < 2 ^ 53) :
    roundDouble (n : ℚ) = n := by
  rcases lt_or_eq_of_le h0 with hpos | hz
  · simpa using roundDouble_exact n 0 hpos h
  · subst hz; simp [roundDouble]

/-- The binary64 value nearest to `7/100` is `5044031582654956 * 2^-56`,
slightly above `7/100`. -/
theorem roundDouble_seven_percent :
    roundDouble (7 / 100) = 5044031582654956 / 2 ^ 56 := by
  have hq : (0 : ℚ) < 7 / 100 := by norm_num
  have hlog : Int.log 2 (7 / 100 : ℚ) = -4 := by
    have h1 : (-4 : ℤ) ≤ Int.log 2 (7 / 100 : ℚ) :=
      (Int.zpow_le_iff_le_log (by norm_num) hq).mp (by norm_num)
    have h2 : Int.log 2 (7 / 100 : ℚ) < -3 :=
      (Int.lt_zpow_iff_log_lt (by norm_num) hq).mp (by norm_num)
    omega
  rw [roundDouble_pos_eq hq, hlog]
  have hfloor : ⌊(7 / 100 : ℚ) / 2 ^ ((-4 : ℤ) - 52)⌋ = 5044031582654955 := by
    rw [Int.floor_eq_iff]
    constructor <;> norm_num
  have hr : roundHalfEven ((7 / 100 : ℚ) / 2 ^ ((-4 : ℤ) - 52)) = 5044031582654956 := by
    unfold roundHalfEven
    rw [hfloor]
    rw [if_neg (by norm_num), if_pos (by norm_num)]
    norm_num
  rw [hr]
  norm_num

theorem roundDouble_pos {q : ℚ} (hq : 0 < q) : 0 < roundDouble q := by
  rw [roundDouble_pos_eq hq]
  have h2 : (0 : ℚ) < 2 := by norm_num
  apply mul_pos _ (zpow_pos h2 _)
  have h3 : (2 : ℤ) ^ 52 ≤ roundHalfEven (q / 2 ^ (Int.log 2 q - 52)) := by
    have := roundHalfEven_mono (scaled_bounds hq).1
    have h52 : ((2 : ℚ) ^ (52 : ℤ)) = (((2 : ℤ) ^ 52 : ℤ) : ℚ) := by norm_num
    rw [h52, roundHalfEven_intCast] at this
    exact this
  have : (0 : ℤ) < roundHalfEven (q / 2 ^ (Int.log 2 q - 52)) := lt_of_lt_of_le (by norm_num) h3
  exact Int.cast_pos.mpr this

theorem Double.mul_finite (a b : ℚ) :
    Double.mul (.finite a) (.finite b) = .finite (roundDouble (a * b)) := rfl

theorem Double.div_finite (a b : ℚ) (hb : b ≠ 0) :
    Double.div (.finite a) (.finite b) = .finite (roundDouble (a / b)) := by
  simp [Double.div, hb]

/-- Value of the efficiency-gap expression for a positive total, `a` being
the `int` value of `abs(wastedDem - wastedRep)`. -/
theorem efficiencyGapOf_eq (wD wR total a : Int)
    (heq : wrapInt |wrapInt (wD - wR)| = a) (ha0 : 0 ≤ a) (ha : a ≤ INT_MAX)
    (hb : 0 < total) (hb' : total ≤ INT_MAX) :
    efficiencyGapOf wD wR total
      = .finite (roundDouble (roundDouble ((a : ℤ) / (total : ℤ)) * 100)) := by
  have ha53 : a < 2 ^ 53 := lt_of_le_of_lt ha (by unfold INT_MAX; norm_num)
  have hb53 : total < 2 ^ 53 := lt_of_le_of_lt hb' (by unfold INT_MAX; norm_num)
  have hbq : ((total : ℤ) : ℚ) ≠ 0 := ne_of_gt (Int.cast_pos.mpr hb)
  have h100 : roundDouble ((100 : ℤ) : ℚ) = 100 := by
    simpa using roundDouble_intCast 100 (by norm_num) (by norm_num)
  unfold efficiencyGapOf Double.ofInt
  rw [heq, roundDouble_intCast _ ha0 ha53, roundDouble_intCast _ (le_of_lt hb) hb53, h100,
    Double.mul_finite, one_mul, roundDouble_intCast _ ha0 ha53, Double.div_finite _ _ hbq,
    Double.mul_finite]

theorem roundDouble_mono_nonneg {x y : ℚ} (hx : 0 ≤ x) (h : x ≤ y) :
    roundDouble x ≤ roundDouble y := by
  rcases lt_or_eq_of_le hx with hpos | hz
  · exact roundDouble_mono_pos hpos h
  · subst hz
    rw [roundDouble_zero]
    rcases lt_or_eq_of_le h with hy | hy
    · exact le_of_lt (roundDouble_pos hy)
    · rw [← hy, roundDouble_zero]

/-- The comparison `efficiencyGap >= 7` agrees with exact arithmetic for a
positive total, `a` being the `int` value of `abs(wastedDem - wastedRep)`. -/
theorem efficiencyGapOf_ge_seven_iff_abs (wD wR total a : Int)
    (heq : wrapInt |wrapInt (wD - wR)| = a) (ha0 : 0 ≤ a) (ha : a ≤ INT_MAX)
    (hb : 0 < total) (hb' : total ≤ INT_MAX) :
    Double.ge (efficiencyGapOf wD wR total) (Double.ofInt 7) = true
      ↔ 7 * total ≤ 100 * a := by
  have h7 : roundDouble ((7 : ℤ) : ℚ) = 7 := by
    simpa using roundDouble_intCast 7 (by norm_num) (by norm_num)
  rw [efficiencyGapOf_eq wD wR total a heq ha0 ha hb hb']
  unfold Double.ofInt
  rw [h7]
  simp only [Double.ge, decide_eq_true_eq]
  have haq : (0 : ℚ) ≤ (a : ℚ) := Int.cast_nonneg.mpr ha0
  have hbq : (0 : ℚ) < (total : ℚ) := Int.cast_pos.mpr hb
  have hbI : (total : ℚ) ≤ 2147483647 := by
    have : ((total : ℤ) : ℚ) ≤ ((INT_MAX : ℤ) : ℚ) := Int.cast_le.mpr hb'
    simpa [INT_MAX] using this
  have hdiv0 : (0 : ℚ) ≤ (a : ℚ) / (total : ℚ) := div_nonneg haq (le_of_lt hbq)
  have hx0 : 0 ≤ roundDouble ((a : ℚ) / (total : ℚ)) := by
    have := roundDouble_mono_nonneg (le_refl 0) hdiv0
    rwa [roundDouble_zero] at this
  constructor
  · intro h
    by_contra hlt
    have hlt' : 100 * a + 1 ≤ 7 * total := by omega
    have hltq : (100 : ℚ) * a + 1 ≤ 7 * total := by exact_mod_cast hlt'
    have hc1 : (a : ℚ) / (total : ℚ) ≤ ((5044031582589420 : ℤ) : ℚ) * 2 ^ (-56 : ℤ) := by
      rw [div_le_iff₀ hbq]
      norm_num
      linarith
    have hx2 : roundDouble ((a : ℚ) / (total : ℚ))
        ≤ ((5044031582589420 : ℤ) : ℚ) * 2 ^ (-56 : ℤ) := by
      calc roundDouble ((a : ℚ) / (total : ℚ))
          ≤ roundDouble (((5044031582589420 : ℤ) : ℚ) * 2 ^ (-56 : ℤ)) :=
            roundDouble_mono_nonneg hdiv0 hc1
        _ = _ := roundDouble_exact _ _ (by norm_num) (by norm_num)
    have hx3 : roundDouble ((a : ℚ) / (total : ℚ)) * 100
        ≤ ((7881299347898367 : ℤ) : ℚ) * 2 ^ (-50 : ℤ) := by
      have : ((5044031582589420 : ℤ) : ℚ) * 2 ^ (-56 : ℤ) * 100
          ≤ ((7881299347898367 : ℤ) : ℚ) * 2 ^ (-50 : ℤ) := by norm_num
      linarith
    have hx4 : roundDouble (roundDouble ((a : ℚ) / (total : ℚ)) * 100)
        ≤ ((7881299347898367 : ℤ) : ℚ) * 2 ^ (-50 : ℤ) := by
      calc roundDouble (roundDouble ((a : ℚ) / (total : ℚ)) * 100)
          ≤ roundDouble (((7881299347898367 : ℤ) : ℚ) * 2 ^ (-50 : ℤ)) :=
            roundDouble_mono_nonneg (mul_nonneg hx0 (by norm_num)) hx3
        _ = _ := roundDouble_exact _ _ (by norm_num) (by norm_num)
    have : ((7881299347898367 : ℤ) : ℚ) * 2 ^ (-50 : ℤ) < 7 := by norm_num
    linarith
  · intro h
    have hq : (7 : ℚ) * total ≤ 100 * a := by exact_mod_cast h
    have hc0 : (7 / 100 : ℚ) ≤ (a : ℚ) / (total : ℚ) := by
      rw [le_div_iff₀ hbq]
      linarith
    have hx2 : (5044031582654956 / 2 ^ 56 : ℚ) ≤ roundDouble ((a : ℚ) / (total : ℚ)) := by
      rw [← roundDouble_seven_percent]
      exact roundDouble_mono_nonneg (by norm_num) hc0
    have hx3 : (7 : ℚ) ≤ roundDouble ((a : ℚ) / (total : ℚ)) * 100 := by
      have : (7 : ℚ) ≤ 5044031582654956 / 2 ^ 56 * 100 := by norm_num
      linarith
    have := roundDouble_mono_nonneg (by norm_num : (0 : ℚ) ≤ 7) hx3
    rw [show (7 : ℚ) = ((7 : ℤ) : ℚ) by norm_num, h7] at this
    exact this

theorem abs_wrap_of_fits (x : Int) (h : |x| ≤ INT_MAX) : wrapInt |wrapInt x| = |x| := by
  have hI : INT_MAX = 2147483647 := rfl
  have hJ : INT_MIN = -2147483648 := rfl
  have h0 : (0 : ℤ) ≤ |x| := abs_nonneg _
  obtain ⟨h1, h2⟩ := abs_le.mp h
  rw [wrapInt_of_fits x (by rw [hJ]; rw [hI] at h1; omega) h2,
    wrapInt_of_fits |x| (by rw [hJ]; omega) h]

/-- The comparison `efficiencyGap >= 7` agrees with exact arithmetic for a
positive total when `wastedDem - wastedRep` does not overflow. -/
theorem efficiencyGapOf_ge_seven_iff (wD wR total : Int) (ha : |wD - wR| ≤ INT_MAX)
    (hb : 0 < total) (hb' : total ≤ INT_MAX) :
    Double.ge (efficiencyGapOf wD wR total) (Double.ofInt 7) = true
      ↔ 7 * total ≤ 100 * |wD - wR| :=
  efficiencyGapOf_ge_seven_iff_abs wD wR total |wD - wR| (abs_wrap_of_fits _ ha)
    (abs_nonneg _) ha hb hb'

/-- The `int` value of `abs(a - b)` does not depend on the order of `a` and
`b`, also when the subtraction wraps. -/
theorem abs_wrap_comm (a b : Int) : wrapInt |wrapInt (a - b)| = wrapInt |wrapInt (b - a)| := by
  have h : wrapInt (b - a) = -wrapInt (a - b)
      ∨ (wrapInt (a - b) = -2147483648 ∧ wrapInt (b - a) = -2147483648) := by
    unfold wrapInt
    omega
  rcases h with h | ⟨h1, h2⟩
  · rw [h, abs_neg]
  · rw [h1, h2]

/-! ## Lemmas on `PrintStateStats` -/

/-- The report of `PrintStateStats` on a registry entry whose wasted votes are known. -/
theorem PrintStateStats_eq (stateIndex : Int) (states : List State) (state : State)
    (w : Wasted) (h1 : ourvector_at_int states stateIndex = .ok state)
    (h2 : CalcWastedVotes state 0 0 0 = .ok w) :
    PrintStateStats stateIndex states
      = .ok { isGerrymandered :=
                Double.ge (efficiencyGapOf w.wastedDemocrat w.wastedRepublican w.totalVotes)
                    (Double.ofInt 7)
                  && decide (state.democraticVotesPerDistrict.length ≥ 3)
              against :=
                if (Double.ge (efficiencyGapOf w.wastedDemocrat w.wastedRepublican w.totalVotes)
                      (Double.ofInt 7)
                    && decide (state.democraticVotesPerDistrict.length ≥ 3)) = true then
                  some (if w.wastedDemocrat > w.wastedRepublican then .Democrats
                    else .Republicans)
                else none
              efficiencyGap :=
                efficiencyGapOf w.wastedDemocrat w.wastedRepublican w.totalVotes
              wastedDem := w.wastedDemocrat
              wastedRep := w.wastedRepublican
              eligibleVoters := state.eligibleVoters } := by
  unfold PrintStateStats
  rw [h1]
  simp only [Run.bind]
  rw [h2]

theorem ofDistricts_length (name : Str) (districts : List (Int × Int)) (voters : Option Int) :
    (State.ofDistricts name districts voters).democraticVotesPerDistrict.length
      = districts.length := by
  simp [State.ofDistricts]

/-- With equal wasted votes the gap is `0` or a NaN, never at least 7. -/
theorem efficiencyGapOf_self (x total : Int) :
    Double.ge (efficiencyGapOf x x total) (Double.ofInt 7) = false := by
  have h7 : roundDouble ((7 : ℤ) : ℚ) = 7 := by
    simpa using roundDouble_intCast 7 (by norm_num) (by norm_num)
  have hz0 : wrapInt |wrapInt (x - x)| = 0 := by
    rw [sub_self]
    decide
  unfold efficiencyGapOf Double.ofInt
  rw [hz0, Int.cast_zero, roundDouble_zero, Double.mul_finite, mul_zero,
    roundDouble_zero, h7]
  by_cases hz : roundDouble (total : ℚ) = 0
  · simp [Double.div, hz, Double.mul, Double.ge]
  · rw [Double.div_finite _ _ hz, zero_div, roundDouble_zero, Double.mul_finite, zero_mul,
      roundDouble_zero]
    simp [Double.ge]

theorem efficiencyGapOf_comm (a b total : Int) :
    efficiencyGapOf a b total = efficiencyGapOf b a total := by
  unfold efficiencyGapOf
  rw [abs_wrap_comm]

theorem CalcWastedVotes_body_swap (d r : Int) (h : d ≠ r) (acc : Wasted) :
    CalcWastedVotes_body r d acc.swap = (CalcWastedVotes_body d r acc).swap := by
  unfold CalcWastedVotes_body Wasted.swap
  rw [add_comm r d]
  by_cases hlt : d > r
  · have hn : ¬ r > d := by omega
    simp only [hlt, hn, if_true, if_false]
  · have hn : r > d := by omega
    simp only [hlt, hn, if_true, if_false]

theorem CalcWastedVotes_fold_swap (districts : List (Int × Int))
    (h : ∀ p ∈ districts, p.1 ≠ p.2) (acc : Wasted) :
    (districts.map Prod.swap).foldl (fun w p => CalcWastedVotes_body p.1 p.2 w) acc.swap
      = (districts.foldl (fun w p => CalcWastedVotes_body p.1 p.2 w) acc).swap := by
  induction districts generalizing acc with
  | nil => rfl
  | cons p rest ih =>
    have hp : p.1 ≠ p.2 := h p (List.mem_cons_self _ _)
    have hr : ∀ q ∈ rest, q.1 ≠ q.2 := fun q hq => h q (List.mem_cons_of_mem _ hq)
    simp only [List.map_cons, List.foldl_cons, Prod.fst_swap, Prod.snd_swap]
    rw [CalcWastedVotes_body_swap p.1 p.2 hp, ih hr]

/-! ## C4: exchanging the parties -/

/-- C4 (counterexample): the region `(5,5), (6,4), (6,4)` has non-negative
tallies and 30 votes.  Its wasted votes are 5 and 7 (magnitude 2/30, not
gerrymandered); after exchanging the parties in every district they are 13
and -1 (magnitude 14/30, gerrymandered): the magnitude is not preserved. -/
theorem C4_counterexample :
    ∃ rep rep' : StatsReport,
      PrintStateStats 0 [State.ofDistricts [] [(5, 5), (6, 4), (6, 4)] none] = .ok rep
      ∧ PrintStateStats 0
          [State.ofDistricts [] ([((5 : Int), (5 : Int)), (6, 4), (6, 4)].map Prod.swap) none]
          = .ok rep'
      ∧ |rep.wastedDem - rep.wastedRep| = 2
      ∧ |rep'.wastedDem - rep'.wastedRep| = 14
      ∧ rep.isGerrymandered = false
      ∧ rep'.isGerrymandered = true
      ∧ rep'.efficiencyGap ≠ rep.efficiencyGap := by
  have e1 : Double.ge (efficiencyGapOf 5 7 30) (Double.ofInt 7) = false := by
    rw [Bool.eq_false_iff, Ne, efficiencyGapOf_ge_seven_iff 5 7 30 (by decide) (by decide)
      (by decide)]
    decide
  have e2 : Double.ge (efficiencyGapOf 13 (-1) 30) (Double.ofInt 7) = true := by
    rw [efficiencyGapOf_ge_seven_iff 13 (-1) 30 (by decide) (by decide) (by decide)]
    decide
  refine ⟨_, _,
    PrintStateStats_eq 0 _ (State.ofDistricts [] [(5, 5), (6, 4), (6, 4)] none)
      { wastedDemocrat := 5, wastedRepublican := 7, totalVotes := 30 } (by decide) (by decide),
    PrintStateStats_eq 0 _
      (State.ofDistricts [] ([((5 : Int), (5 : Int)), (6, 4), (6, 4)].map Prod.swap) none)
      { wastedDemocrat := 13, wastedRepublican := -1, totalVotes := 30 } (by decide)
      (by decide),
    by decide, by decide, ?_, ?_, ?_⟩
  · simp only [e1, Bool.false_and]
  · simp only [e2, Bool.true_and]
    decide
  · intro h
    simp only at h
    rw [h] at e2
    rw [e1] at e2
    exact absurd e2 (by decide)

/-- C4 (amended): for every region in which no district is tied (`d ≠ r` in
every district), replacing every district `(d, r)` by `(r, d)` exchanges the
two wasted-vote counts, so `PrintStateStats` computes the same efficiency gap
and the same classification, and when the region is gerrymandered the
reported disadvantaged party is flipped. -/
theorem C4_swap_symmetry (states states' : List State) (i i' : Int) (name name' : Str)
    (voters voters' : Option Int) (districts : List (Int × Int))
    (hne : ∀ p ∈ districts, p.1 ≠ p.2)
    (h : ourvector_at_int states i = .ok (State.ofDistricts name districts voters))
    (h' : ourvector_at_int states' i'
      = .ok (State.ofDistricts name' (districts.map Prod.swap) voters')) :
    ∃ rep rep' : StatsReport,
      PrintStateStats i states = .ok rep
      ∧ PrintStateStats i' states' = .ok rep'
      ∧ rep'.efficiencyGap = rep.efficiencyGap
      ∧ rep'.isGerrymandered = rep.isGerrymandered
      ∧ rep'.against = rep.against.map Party.other
      ∧ rep'.wastedDem = rep.wastedRep
      ∧ rep'.wastedRep = rep.wastedDem := by
  have hw := CalcWastedVotes_ofDistricts name voters districts 0 0 0
  have hw' := CalcWastedVotes_ofDistricts name' voters' (districts.map Prod.swap) 0 0 0
  have hz : ({ wastedDemocrat := 0, wastedRepublican := 0, totalVotes := 0 } : Wasted)
      = Wasted.swap { wastedDemocrat := 0, wastedRepublican := 0, totalVotes := 0 } := rfl
  rw [hz, CalcWastedVotes_fold_swap districts hne] at hw'
  generalize districts.foldl (fun w p => CalcWastedVotes_body p.1 p.2 w)
    { wastedDemocrat := 0, wastedRepublican := 0, totalVotes := 0 } = w at hw hw'
  refine ⟨_, _, PrintStateStats_eq i states _ w h hw,
    PrintStateStats_eq i' states' _ w.swap h' hw', ?_, ?_, ?_, rfl, rfl⟩
  · exact efficiencyGapOf_comm _ _ _
  · simp only [Wasted.swap, ofDistricts_length, List.length_map,
      efficiencyGapOf_comm w.wastedRepublican w.wastedDemocrat]
  · simp only [Wasted.swap, ofDistricts_length, List.length_map,
      efficiencyGapOf_comm w.wastedRepublican w.wastedDemocrat]
    by_cases hg : (Double.ge (efficiencyGapOf w.wastedDemocrat w.wastedRepublican w.totalVotes)
        (Double.ofInt 7) && decide (districts.length ≥ 3)) = true
    · have hge : Double.ge
          (efficiencyGapOf w.wastedDemocrat w.wastedRepublican w.totalVotes)
          (Double.ofInt 7) = true := by
        rw [Bool.and_eq_true] at hg
        exact hg.1
      have hneq : w.wastedDemocrat ≠ w.wastedRepublican := by
        intro heq
        rw [heq, efficiencyGapOf_self] at hge
        exact absurd hge (by decide)
      rw [if_pos hg, if_pos hg]
      by_cases hlt : w.wastedDemocrat > w.wastedRepublican
      · have hn : ¬ w.wastedRepublican > w.wastedDemocrat := by omega
        simp [hlt, hn, Party.other]
      · have hn : w.wastedRepublican > w.wastedDemocrat := by omega
        simp [hlt, hn, Party.other]
    · rw [if_neg hg, if_neg hg]
      rfl

/-- C4 (witness): the amended symmetry at the region `(600,400), (300,700),
(550,450)` and its mirror image. -/
theorem C4_swap_symmetry_witness :
    (∀ p ∈ [((600 : Int), (400 : Int)), (300, 700), (550, 450)], p.1 ≠ p.2)
    ∧ ∃ rep rep' : StatsReport,
      PrintStateStats 0
          [State.ofDistricts [] [(600, 400), (300, 700), (550, 450)] none] = .ok rep
      ∧ PrintStateStats 0
          [State.ofDistricts []
            ([((600 : Int), (400 : Int)), (300, 700), (550, 450)].map Prod.swap) none]
          = .ok rep'
      ∧ rep'.efficiencyGap = rep.efficiencyGap
      ∧ rep'.isGerrymandered = rep.isGerrymandered
      ∧ rep'.against = rep.against.map Party.other
      ∧ rep'.wastedDem = rep.wastedRep
      ∧ rep'.wastedRep = rep.wastedDem :=
  ⟨by decide,
    C4_swap_symmetry _ _ 0 0 [] [] none none
      [(600, 400), (300, 700), (550, 450)] (by decide) (by decide) (by decide)⟩

/-! ## C5: the classification -/

theorem CalcWastedVotes_fold_total_fits (districts : List (Int × Int)) (acc : Wasted)
    (h : acc.totalVotes ≤ INT_MAX) :
    (districts.foldl (fun w p => CalcWastedVotes_body p.1 p.2 w) acc).totalVotes
      ≤ INT_MAX := by
  induction districts generalizing acc with
  | nil => exact h
  | cons p rest ih =>
    rw [List.foldl_cons]
    apply ih
    unfold CalcWastedVotes_body
    split <;> exact (wrapInt_fits _).2

/-- C5 (counterexample): the region `(2147483647, 2147483646), (0, 6)` and six
times `(2, 0)` ends `CalcWastedVotes` with wastedDem = 2147483647, wastedRep =
-2147483648 and totalVotes = 15.  The exact difference is 4294967295, far
above 7 percent of 15, and there are 8 districts; but the `int` subtraction
wraps to -1, the gap computed is 100 * 1 / 15 < 7 and the region is reported
as not gerrymandered. -/
theorem C5_counterexample :
    CalcWastedVotes
        (State.ofDistricts []
          [(2147483647, 2147483646), (0, 6), (2, 0), (2, 0), (2, 0), (2, 0), (2, 0), (2, 0)]
          none) 0 0 0
      = .ok { wastedDemocrat := 2147483647, wastedRepublican := -2147483648,
              totalVotes := 15 }
    ∧ (0 : Int) < 15
    ∧ 7 * (15 : Int) ≤ 100 * |(2147483647 : Int) - -2147483648|
    ∧ 3 ≤ [((2147483647 : Int), (2147483646 : Int)), (0, 6), (2, 0), (2, 0), (2, 0),
        (2, 0), (2, 0), (2, 0)].length
    ∧ ∃ rep : StatsReport,
        PrintStateStats 0
          [State.ofDistricts []
            [(2147483647, 2147483646), (0, 6), (2, 0), (2, 0), (2, 0), (2, 0), (2, 0),
              (2, 0)] none] = .ok rep
        ∧ rep.isGerrymandered = false := by
  have e1 : Double.ge (efficiencyGapOf 2147483647 (-2147483648) 15) (Double.ofInt 7)
      = false := by
    rw [Bool.eq_false_iff, Ne,
      efficiencyGapOf_ge_seven_iff_abs 2147483647 (-2147483648) 15 1 (by decide) (by decide)
        (by decide) (by decide) (by decide)]
    decide
  refine ⟨by decide, by decide, by decide, by decide, _,
    PrintStateStats_eq 0 _
      (State.ofDistricts []
        [(2147483647, 2147483646), (0, 6), (2, 0), (2, 0), (2, 0), (2, 0), (2, 0), (2, 0)]
        none)
      { wastedDemocrat := 2147483647, wastedRepublican := -2147483648, totalVotes := 15 }
      (by decide) (by decide), ?_⟩
  simp only [e1, Bool.false_and]

/-- C5 (amended): for every region with `totalVotes > 0` for which the `int`
subtraction `wastedDem - wastedRep` does not overflow
(`|wastedDem - wastedRep| <= INT_MAX`, the values being those
`CalcWastedVotes` leaves in the `int` variables), `PrintStateStats`
classifies the region as gerrymandered if and only if
`100 * |wastedDemocratic - wastedRepublican| >= 7 * totalVotes` and the region
has at least 3 districts; when it is gerrymandered the reported party is
Democrats exactly when `wastedDemocratic > wastedRepublican`, otherwise
Republicans. -/
theorem C5_classification (states : List State) (i : Int) (name : Str)
    (voters : Option Int) (districts : List (Int × Int)) (w : Wasted)
    (h : ourvector_at_int states i = .ok (State.ofDistricts name districts voters))
    (hw : CalcWastedVotes (State.ofDistricts name districts voters) 0 0 0 = .ok w)
    (hpos : 0 < w.totalVotes)
    (hdiff : |w.wastedDemocrat - w.wastedRepublican| ≤ INT_MAX) :
    ∃ rep : StatsReport,
      PrintStateStats i states = .ok rep
      ∧ (rep.isGerrymandered = true
          ↔ 7 * w.totalVotes ≤ 100 * |w.wastedDemocrat - w.wastedRepublican|
            ∧ 3 ≤ districts.length)
      ∧ (rep.isGerrymandered = true →
          (w.wastedDemocrat > w.wastedRepublican → rep.against = some .Democrats)
          ∧ (¬ w.wastedDemocrat > w.wastedRepublican → rep.against = some .Republicans))
      ∧ (rep.isGerrymandered = false → rep.against = none) := by
  have htot : w.totalVotes ≤ INT_MAX := by
    have hfold := CalcWastedVotes_ofDistricts name voters districts 0 0 0
    rw [hw] at hfold
    injection hfold with hfold
    rw [hfold]
    exact CalcWastedVotes_fold_total_fits districts _ (by decide)
  refine ⟨_, PrintStateStats_eq i states _ w h hw, ?_, ?_, ?_⟩
  · simp only [Bool.and_eq_true, decide_eq_true_eq, ofDistricts_length,
      efficiencyGapOf_ge_seven_iff _ _ _ hdiff hpos htot, ge_iff_le]
  · intro hg
    simp only at hg
    constructor
    · intro hlt
      simp only [hg, if_true, hlt]
    · intro hlt
      simp only [hg, if_true, hlt, if_false]
  · intro hg
    simp only at hg
    simp only [hg, Bool.false_eq_true, if_false]

/-- C5 (witness): the region `(600,400), (300,700), (500,500)` of state
index 0. -/
theorem C5_classification_witness :
    ∃ rep : StatsReport,
      PrintStateStats 0
          [State.ofDistricts [] [(600, 400), (300, 700), (500, 500)] none] = .ok rep
      ∧ (rep.isGerrymandered = true
          ↔ 7 * (3000 : Int) ≤ 100 * |(899 : Int) - 598|
            ∧ 3 ≤ [((600 : Int), (400 : Int)), (300, 700), (500, 500)].length)
      ∧ (rep.isGerrymandered = true →
          ((899 : Int) > 598 → rep.against = some .Democrats)
          ∧ (¬ (899 : Int) > 598 → rep.against = some .Republicans))
      ∧ (rep.isGerrymandered = false → rep.against = none) :=
  C5_classification _ 0 [] none [(600, 400), (300, 700), (500, 500)]
    { wastedDemocrat := 899, wastedRepublican := 598, totalVotes := 3000 }
    (by decide) (by decide) (by decide) (by decide)

/-! ## C6: a region without votes -/

theorem roundDouble_three : roundDouble ((3 : ℤ) : ℚ) = 3 := by
  simpa using roundDouble_intCast 3 (by norm_num) (by norm_num)

theorem roundDouble_hundred : roundDouble ((100 : ℤ) : ℚ) = 100 := by
  simpa using roundDouble_intCast 100 (by norm_num) (by norm_num)

/-- C6 (failing input): the region with the three districts `(0,0)` has
`totalVotes = 0`, `wastedDemocratic = 0` and `wastedRepublican = -3`; the
unguarded division yields `3.0 / 0 = +inf`, which is `>= 7`, so the region is
reported as gerrymandered against Democrats. -/
theorem C6_zero_votes_reported_gerrymandered :
    PrintStateStats 0 [State.ofDistricts [] [(0, 0), (0, 0), (0, 0)] none]
      = .ok { isGerrymandered := true
              against := some .Democrats
              efficiencyGap := .inf false
              wastedDem := 0
              wastedRep := -3
              eligibleVoters := none } := by
  have hgap : efficiencyGapOf 0 (-3) 0 = .inf false := by
    unfold efficiencyGapOf Double.ofInt
    have h3 : wrapInt |wrapInt ((0 : ℤ) - -3)| = 3 := by decide
    rw [h3, roundDouble_three, roundDouble_hundred, Int.cast_zero, roundDouble_zero,
      Double.mul_finite, one_mul]
    rw [show (3 : ℚ) = ((3 : ℤ) : ℚ) by norm_num, roundDouble_three]
    simp [Double.div, Double.mul]
    norm_num
  rw [PrintStateStats_eq 0 _ (State.ofDistricts [] [(0, 0), (0, 0), (0, 0)] none)
    { wastedDemocrat := 0, wastedRepublican := -3, totalVotes := 0 } (by decide) (by decide)]
  simp only [hgap]
  decide

/-! ## C7: fewer than three districts -/

/-- C7: a region with fewer than 3 districts is reported as not gerrymandered
by `PrintStateStats`, whatever its tallies and whatever the computed gap, and
no disadvantaged party is printed. -/
theorem C7_fewer_than_three_districts (states : List State) (i : Int) (name : Str)
    (voters : Option Int) (districts : List (Int × Int))
    (h : ourvector_at_int states i = .ok (State.ofDistricts name districts voters))
    (hlen : districts.length < 3) :
    ∃ rep : StatsReport,
      PrintStateStats i states = .ok rep
      ∧ rep.isGerrymandered = false ∧ rep.against = none := by
  have hd : decide (districts.length ≥ 3) = false := by
    rw [decide_eq_false_iff_not]
    omega
  refine ⟨_, PrintStateStats_eq i states _ _ h
    (CalcWastedVotes_ofDistricts name voters districts 0 0 0), ?_, ?_⟩
  · simp only [ofDistricts_length, hd, Bool.and_false]
  · simp only [ofDistricts_length, hd, Bool.and_false, Bool.false_eq_true, if_false]

/-- C7 (witness): the two-district region `(1000,0), (1000,0)`, whose exact
gap is 50 percent. -/
theorem C7_fewer_than_three_districts_witness :
    [((1000 : Int), (0 : Int)), (1000, 0)].length < 3
    ∧ ∃ rep : StatsReport,
      PrintStateStats 0 [State.ofDistricts [] [(1000, 0), (1000, 0)] none] = .ok rep
      ∧ rep.isGerrymandered = false ∧ rep.against = none :=
  ⟨by decide,
    C7_fewer_than_three_districts _ 0 [] none [(1000, 0), (1000, 0)] (by decide) (by decide)⟩

/-! ## Lemmas on `SplitDelimiter` with a one-character delimiter -/

theorem find_singleton_of_not_mem (c : Char) (field : Str) (h : c ∉ field) :
    find field [c] = none := by
  induction field with
  | nil => simp [find]
  | cons x rest ih =>
    have hx : c ≠ x := fun e => h (e ▸ List.mem_cons_self _ _)
    have hr : c ∉ rest := fun m => h (List.mem_cons_of_mem _ m)
    simp [find, List.isPrefixOf, hx, ih hr]

theorem find_singleton_append (c : Char) (field rest : Str) (h : c ∉ field) :
    find (field ++ c :: rest) [c] = some field.length := by
  induction field with
  | nil => simp [find, List.isPrefixOf]
  | cons x tail ih =>
    have hx : c ≠ x := fun e => h (e ▸ List.mem_cons_self _ _)
    have hr : c ∉ tail := fun m => h (List.mem_cons_of_mem _ m)
    simp [find, List.isPrefixOf, hx, ih hr]

/-- One round of the loop on a line that starts with a field free of `c`
followed by `c`: the field is pushed and the loop goes on after the `c`. -/
theorem SplitDelimiter_loop_step (c : Char) (fuel : Nat) (field rest : Str)
    (splitLine : List Str) (h : c ∉ field) :
    SplitDelimiter_loop [c] (fuel + 1) (field ++ c :: rest) splitLine
      = SplitDelimiter_loop [c] fuel rest (splitLine ++ [field]) := by
  have h1 : substr (field ++ c :: rest) 0 field.length = .ok field := by
    simp [substr]
  have h2 : substr (field ++ c :: rest) (field.length + 1) (field ++ c :: rest).length
      = .ok rest := by
    have hd : List.drop (field.length + 1) (field ++ c :: rest) = rest := by
      rw [List.drop_append_eq_append_drop]
      simp
    simp only [substr, List.length_append, List.length_cons, hd]
    rw [if_neg (by omega)]
    congr 1
    exact List.take_of_length_le (by omega)
  simp only [SplitDelimiter_loop, find_singleton_append c field rest h, h1, h2]

theorem SplitDelimiter_loop_last (c : Char) (fuel : Nat) (field : Str)
    (splitLine : List Str) (h : c ∉ field) :
    SplitDelimiter_loop [c] (fuel + 1) field splitLine = .ok (splitLine ++ [field]) := by
  simp only [SplitDelimiter_loop, find_singleton_of_not_mem c field h]

theorem length_le_joinFields (c : Char) (fields : List Str) :
    fields.length ≤ (joinFields c fields).length + 1 := by
  induction fields with
  | nil => simp
  | cons f rest ih =>
    cases rest with
    | nil => simp
    | cons g gs =>
      simp only [joinFields, List.length_cons, List.length_append] at ih ⊢
      omega

theorem SplitDelimiter_loop_join (c : Char) (fields : List Str) (hne : fields ≠ [])
    (hfree : ∀ f ∈ fields, c ∉ f) (fuel : Nat) (hfuel : fields.length ≤ fuel)
    (splitLine : List Str) :
    SplitDelimiter_loop [c] fuel (joinFields c fields) splitLine
      = .ok (splitLine ++ fields) := by
  induction fields generalizing fuel splitLine with
  | nil => exact absurd rfl hne
  | cons f rest ih =>
    have hf : c ∉ f := hfree f (List.mem_cons_self _ _)
    obtain ⟨n, rfl⟩ : ∃ n, fuel = n + 1 := ⟨fuel - 1, by simp at hfuel; omega⟩
    cases rest with
    | nil => simpa [joinFields] using SplitDelimiter_loop_last c n f splitLine hf
    | cons g gs =>
      have hrest : ∀ x ∈ g :: gs, c ∉ x := fun x hx => hfree x (List.mem_cons_of_mem _ hx)
      simp only [joinFields]
      rw [SplitDelimiter_loop_step c n f _ splitLine hf,
        ih (List.cons_ne_nil _ _) hrest n (by simp at hfuel ⊢; omega)]
      simp

/-- Splitting a line built from fields free of the delimiter gives the fields
back. -/
theorem SplitDelimiter_join (c : Char) (fields : List Str) (hne : fields ≠ [])
    (hfree : ∀ f ∈ fields, c ∉ f) (splitLine : List Str) :
    SplitDelimiter (joinFields c fields) splitLine [c] = .ok (splitLine ++ fields) :=
  SplitDelimiter_loop_join c fields hne hfree _ (length_le_joinFields c fields) splitLine

/-! ## C8: delimiters longer than one character -/

/-- C8 (failing input): on the line `a--b` with the delimiter `--` the loop
cuts after the first character of the delimiter only: the fields are `a` and
`-b`, not `a` and `b`, and the second field still holds a delimiter
character. -/
theorem C8_two_character_delimiter :
    SplitDelimiter "a--b".toList [] "--".toList = .ok ["a".toList, "-b".toList]
    ∧ SplitDelimiter "a--b".toList [] "--".toList ≠ .ok ["a".toList, "b".toList]
    ∧ "a".toList ++ "--".toList ++ "-b".toList ≠ "a--b".toList := by
  decide

/-! ## Lemmas on extraction -/

theorem dropWhile_append_of_all {α : Type} (p : α → Bool) (ws l : List α)
    (h : ∀ x ∈ ws, p x = true) : (ws ++ l).dropWhile p = l.dropWhile p := by
  induction ws with
  | nil => rfl
  | cons w ws ih =>
    have hw : p w = true := h w (List.mem_cons_self _ _)
    simp only [List.cons_append, List.dropWhile_cons, hw, if_true]
    exact ih (fun x hx => h x (List.mem_cons_of_mem _ hx))

theorem takeWhile_append_of_all {α : Type} (p : α → Bool) (ds rest : List α)
    (h : ∀ x ∈ ds, p x = true) (hrest : ∀ x ∈ rest.head?, p x = false) :
    (ds ++ rest).takeWhile p = ds ∧ (ds ++ rest).dropWhile p = rest := by
  induction ds with
  | nil =>
    cases rest with
    | nil => simp
    | cons r rs =>
      have hr : p r = false := hrest r (by simp)
      simp [List.takeWhile_cons, List.dropWhile_cons, hr]
  | cons d ds ih =>
    have hd : p d = true := h d (List.mem_cons_self _ _)
    have := ih (fun x hx => h x (List.mem_cons_of_mem _ hx))
    simp [List.takeWhile_cons, List.dropWhile_cons, hd, this.1, this.2]

theorem isspace_of_isdigit (c : Char) (h : isdigit c = true) : isspace c = false := by
  unfold isdigit at h
  unfold isspace
  simp only [Bool.and_eq_true, decide_eq_true_eq] at h
  simp only [Bool.or_eq_false_iff, Bool.and_eq_false_iff, beq_eq_false_iff_ne, ne_eq,
    decide_eq_false_iff_not]
  omega

/-- A decimal numeral starts with a character that is not white space, and
its digits are what `decimalNumeral?` evaluates. -/
theorem decimalNumeral_cases (text : Str) (v : Int) (h : decimalNumeral? text = some v) :
    ∃ c cs, text = c :: cs ∧ isspace c = false
      ∧ (if c == '-' || c == '+' then cs else c :: cs) ≠ []
      ∧ (∀ x ∈ (if c == '-' || c == '+' then cs else c :: cs), isdigit x = true)
      ∧ v = (if c == '-' then
              -(decimalValue (if c == '-' || c == '+' then cs else c :: cs) : Int)
            else decimalValue (if c == '-' || c == '+' then cs else c :: cs)) := by
  cases text with
  | nil => simp [decimalNumeral?] at h
  | cons c cs =>
    simp only [decimalNumeral?] at h
    by_cases hcond : (if c == '-' || c == '+' then cs else c :: cs) ≠ []
        ∧ (if c == '-' || c == '+' then cs else c :: cs).all isdigit = true
    · rw [if_pos hcond] at h
      obtain ⟨hne, hall⟩ := hcond
      rw [List.all_eq_true] at hall
      refine ⟨c, cs, rfl, ?_, hne, hall, ?_⟩
      · by_cases hs : (c == '-' || c == '+') = true
        · simp only [Bool.or_eq_true, beq_iff_eq] at hs
          rcases hs with hs | hs <;> subst hs <;> decide
        · simp only [hs] at hall
          exact isspace_of_isdigit c (hall c (List.mem_cons_self _ _))
      · injection h with h
        exact h.symm
    · rw [if_neg hcond] at h
      exact absurd h (by simp)

/-- Extraction of a decimal numeral that fits in `int`, possibly after white
space, followed by something that is not a digit: the value is read, the
stream stays good and stands right after the numeral. -/
theorem extractInt_decimal (ws text rest : Str) (v : Int)
    (hdec : decimalNumeral? text = some v) (hlo : INT_MIN ≤ v) (hhi : v ≤ INT_MAX)
    (hws : ∀ x ∈ ws, isspace x = true) (hrest : ∀ x ∈ rest.head?, isdigit x = false) :
    StringStream.extractInt { buf := ws ++ (text ++ rest), eof := false, fail := false }
      = ({ buf := rest, eof := rest.isEmpty, fail := false }, some v) := by
  obtain ⟨c, cs, rfl, hsp, hne, hall, hv⟩ := decimalNumeral_cases text v hdec
  have hdrop : (ws ++ (c :: cs ++ rest)).dropWhile isspace = c :: (cs ++ rest) := by
    rw [dropWhile_append_of_all isspace ws _ hws]
    simp [List.dropWhile_cons, hsp]
  have hbody : (if c == '-' || c == '+' then cs ++ rest else c :: (cs ++ rest))
      = (if c == '-' || c == '+' then cs else c :: cs) ++ rest := by
    split <;> rfl
  unfold StringStream.extractInt
  simp only [Bool.or_self, Bool.false_eq_true, if_false, hdrop, hbody]
  generalize (if c == '-' || c == '+' then cs else c :: cs) = digits at hne hall hv
  obtain ⟨ht, hd⟩ := takeWhile_append_of_all isdigit digits rest hall hrest
  rw [ht, hd]
  have hemp : digits.isEmpty = false := by
    cases digits with
    | nil => exact absurd rfl hne
    | cons _ _ => rfl
  simp only [hemp, Bool.false_eq_true, if_false]
  rw [← hv, if_neg (by omega), if_neg (by omega)]

theorem decimalNumeral_no_comma (text : Str) (v : Int) (h : decimalNumeral? text = some v) :
    ',' ∉ text := by
  obtain ⟨c, cs, rfl, _, _, hall, _⟩ := decimalNumeral_cases text v h
  intro hmem
  by_cases hs : (c == '-' || c == '+') = true
  · simp only [hs, if_true] at hall
    simp only [Bool.or_eq_true, beq_iff_eq] at hs
    rcases List.mem_cons.mp hmem with hc | hc
    · rcases hs with hs | hs <;> rw [← hc] at hs <;> exact absurd hs (by decide)
    · exact absurd (hall _ hc) (by decide)
  · simp only [hs] at hall
    exact absurd (hall _ hmem) (by decide)

/-! ## Lemmas on `CreateAndAddState` -/

theorem ourvector_at_append_add {α : Type} (u v : List α) (i : Nat) :
    ourvector_at (u ++ v) (u.length + i) = ourvector_at v i := by
  induction u with
  | nil => simp
  | cons b u ih =>
    simp only [List.cons_append, List.length_cons]
    rw [show u.length + 1 + i = (u.length + i) + 1 by omega, ourvector_at_cons_succ]
    exact ih

theorem groupFields_length (groups : List TallyGroup) :
    (groupFields groups).length = 3 * groups.length := by
  induction groups with
  | nil => rfl
  | cons g gs ih => simp only [groupFields, List.length_cons, ih]; omega

/-- One round of the loop of `CreateAndAddState` on a well-formed group reads
the two vote fields and leaves both values in the vectors. -/
theorem CreateAndAddState_round (g : TallyGroup) (hg : g.WellFormed) :
    (StringStream.ofStr (g.demText ++ ' ' :: g.repText)).extractInt
        = ({ buf := ' ' :: g.repText, eof := false, fail := false }, some g.dem)
    ∧ StringStream.extractInt { buf := ' ' :: g.repText, eof := false, fail := false }
        = ({ buf := [], eof := true, fail := false }, some g.rep) := by
  obtain ⟨_, hd, hd1, hd2, hr, hr1, hr2⟩ := hg
  have h1 := extractInt_decimal [] g.demText (' ' :: g.repText) g.dem hd hd1 hd2
    (by simp) (by simp; decide)
  have h2 := extractInt_decimal [' '] g.repText [] g.rep hr hr1 hr2
    (by simp; decide) (by simp)
  simp only [List.nil_append, List.isEmpty_cons] at h1
  simp only [List.singleton_append, List.append_nil, List.isEmpty_nil] at h2
  exact ⟨h1, h2⟩

theorem CreateAndAddState_loop_groups (groups : List TallyGroup)
    (hwf : ∀ g ∈ groups, g.WellFormed) (front : List Str) (n : Nat)
    (hn : groups.length ≤ n) (temp : Int) (state : State) :
    CreateAndAddState_loop (front ++ groupFields groups) n front.length temp state
      = .ok { state with
              democraticVotesPerDistrict :=
                state.democraticVotesPerDistrict ++ groups.map TallyGroup.dem
              republicanVotesPerDistrict :=
                state.republicanVotesPerDistrict ++ groups.map TallyGroup.rep } := by
  induction groups generalizing front n temp state with
  | nil =>
    cases n <;> simp [CreateAndAddState_loop, groupFields]
  | cons g gs ih =>
    obtain ⟨m, rfl⟩ : ∃ m, n = m + 1 := ⟨n - 1, by simp at hn; omega⟩
    have hg : g.WellFormed := hwf g (List.mem_cons_self _ _)
    have hgs : ∀ x ∈ gs, x.WellFormed := fun x hx => hwf x (List.mem_cons_of_mem _ hx)
    have hlt : front.length < (front ++ groupFields (g :: gs)).length := by
      simp [groupFields]
    have a1 : ourvector_at (front ++ groupFields (g :: gs)) (front.length + 1)
        = .ok g.demText := by
      rw [ourvector_at_append_add]
      simp [groupFields, ourvector_at]
    have a2 : ourvector_at (front ++ groupFields (g :: gs)) (front.length + 2)
        = .ok g.repText := by
      rw [ourvector_at_append_add]
      simp [groupFields, ourvector_at]
    obtain ⟨r1, r2⟩ := CreateAndAddState_round g hg
    have hrec := ih hgs (front ++ [g.label, g.demText, g.repText]) m
      (by simp at hn; omega) g.rep
      { state with
        democraticVotesPerDistrict := state.democraticVotesPerDistrict ++ [g.dem]
        republicanVotesPerDistrict := state.republicanVotesPerDistrict ++ [g.rep] }
    have hfront : front ++ [g.label, g.demText, g.repText] ++ groupFields gs
        = front ++ groupFields (g :: gs) := by
      simp [groupFields]
    rw [hfront] at hrec
    simp only [List.length_append, List.length_cons, List.length_nil, Nat.zero_add] at hrec
    rw [CreateAndAddState_loop, if_pos hlt, a1, a2]
    simp only [r1, r2, Option.getD_some]
    rw [hrec]
    simp

theorem groupFields_no_comma (groups : List TallyGroup) (hwf : ∀ g ∈ groups, g.WellFormed) :
    ∀ f ∈ groupFields groups, ',' ∉ f := by
  induction groups with
  | nil => simp [groupFields]
  | cons g gs ih =>
    obtain ⟨hl, hd, _, _, hr, _, _⟩ := hwf g (List.mem_cons_self _ _)
    have hgs := ih (fun x hx => hwf x (List.mem_cons_of_mem _ hx))
    intro f hf
    simp only [groupFields, List.mem_cons] at hf
    rcases hf with rfl | rfl | rfl | hf
    · exact hl
    · exact decimalNumeral_no_comma _ _ hd
    · exact decimalNumeral_no_comma _ _ hr
    · exact hgs f hf

/-- The result of `CreateAndAddState` on a well-formed tally line. -/
theorem CreateAndAddState_tallyLine (states : List State) (name : Str)
    (groups : List TallyGroup) (temp : Int) (hname : ',' ∉ name)
    (hwf : ∀ g ∈ groups, g.WellFormed) :
    CreateAndAddState (tallyLine name groups) states temp
      = .ok (states ++ [{ stateName := name
                          democraticVotesPerDistrict := groups.map TallyGroup.dem
                          republicanVotesPerDistrict := groups.map TallyGroup.rep
                          eligibleVoters := none }]) := by
  have hfree : ∀ f ∈ name :: groupFields groups, ',' ∉ f := by
    intro f hf
    rcases List.mem_cons.mp hf with rfl | hf
    · exact hname
    · exact groupFields_no_comma groups hwf f hf
  have hsplit := SplitDelimiter_join ',' (name :: groupFields groups)
    (List.cons_ne_nil _ _) hfree []
  have hloop := CreateAndAddState_loop_groups groups hwf [name]
    (name :: groupFields groups).length
    (by rw [List.length_cons, groupFields_length]; omega) temp
    { stateName := name
      democraticVotesPerDistrict := []
      republicanVotesPerDistrict := []
      eligibleVoters := none }
  simp only [List.singleton_append, List.length_singleton, List.nil_append] at hloop hsplit
  unfold CreateAndAddState tallyLine
  rw [hsplit]
  simp only [ourvector_at, List.get?_cons_zero]
  rw [hloop]

/-! ## C9: a well-formed tally line -/

/-- C9: for every tally line `name,l1,d1,r1,...,ln,dn,rn` (`n >= 0`, name and
labels free of commas, every `di` and `ri` a decimal numeral of an integer
that fits in `int`), `CreateAndAddState` returns normally and appends exactly
one `State`, whose name is `name` and whose district tallies are
`(d1, r1), ..., (dn, rn)` in that order; the labels are ignored. -/
theorem C9_CreateAndAddState_tally_line (states : List State) (name : Str)
    (groups : List TallyGroup) (temp : Int) (hname : ',' ∉ name)
    (hwf : ∀ g ∈ groups, g.WellFormed) :
    CreateAndAddState (tallyLine name groups) states temp
      = .ok (states ++ [{ stateName := name
                          democraticVotesPerDistrict := groups.map TallyGroup.dem
                          republicanVotesPerDistrict := groups.map TallyGroup.rep
                          eligibleVoters := none }]) :=
  CreateAndAddState_tallyLine states name groups temp hname hwf

/-- C9 (witness): the line `Texas,1,600,400,2,300,700,3,500,500` yields the
three districts `(600,400)`, `(300,700)`, `(500,500)`. -/
theorem C9_CreateAndAddState_tally_line_witness :
    tallyLine "Texas".toList
        [ { label := "1".toList, demText := "600".toList, dem := 600,
            repText := "400".toList, rep := 400 },
          { label := "2".toList, demText := "300".toList, dem := 300,
            repText := "700".toList, rep := 700 },
          { label := "3".toList, demText := "500".toList, dem := 500,
            repText := "500".toList, rep := 500 } ]
      = "Texas,1,600,400,2,300,700,3,500,500".toList
    ∧ CreateAndAddState
        (tallyLine "Texas".toList
          [ { label := "1".toList, demText := "600".toList, dem := 600,
              repText := "400".toList, rep := 400 },
            { label := "2".toList, demText := "300".toList, dem := 300,
              repText := "700".toList, rep := 700 },
            { label := "3".toList, demText := "500".toList, dem := 500,
              repText := "500".toList, rep := 500 } ]) [] 0
      = .ok [{ stateName := "Texas".toList
               democraticVotesPerDistrict := [600, 300, 500]
               republicanVotesPerDistrict := [400, 700, 500]
               eligibleVoters := none }] :=
  ⟨by decide, C9_CreateAndAddState_tally_line [] _ _ 0 (by decide) (by decide)⟩

/-! ## Lemmas on `FindStateIndex` and `AppendEligibleVoters` -/

theorem FindStateIndex_loop_none (target : Str) (rest done : List State)
    (h : ∀ s ∈ rest, StringToLower s.stateName ≠ target) :
    FindStateIndex_loop target (done ++ rest) rest.length done.length = .ok (-1) := by
  induction rest generalizing done with
  | nil => rfl
  | cons s rest ih =>
    have hs : StringToLower s.stateName ≠ target := h s (List.mem_cons_self _ _)
    have hrec := ih (done ++ [s]) (fun x hx => h x (List.mem_cons_of_mem _ hx))
    simp only [List.append_assoc, List.singleton_append, List.length_append,
      List.length_singleton] at hrec
    simp only [List.length_cons, FindStateIndex_loop, ourvector_at_append_length, hs,
      if_false]
    exact hrec

theorem FindStateIndex_loop_first (target : Str) (front : List State) (st : State)
    (back done : List State) (n : Nat) (hn : n = (front ++ st :: back).length)
    (hfront : ∀ s ∈ front, StringToLower s.stateName ≠ target)
    (hst : StringToLower st.stateName = target) :
    FindStateIndex_loop target (done ++ (front ++ st :: back)) n done.length
      = .ok ((done.length + front.length : Nat) : Int) := by
  induction front generalizing done n with
  | nil =>
    subst hn
    simp only [List.nil_append, List.length_cons, FindStateIndex_loop,
      ourvector_at_append_length, hst, if_true, List.length_nil, Nat.add_zero]
  | cons s front ih =>
    have hs : StringToLower s.stateName ≠ target := hfront s (List.mem_cons_self _ _)
    obtain ⟨m, rfl⟩ : ∃ m, n = m + 1 := ⟨(front ++ st :: back).length, by simp [hn]⟩
    have hm : m = (front ++ st :: back).length := by simpa using hn
    have hrec := ih (done ++ [s]) m hm (fun x hx => hfront x (List.mem_cons_of_mem _ hx))
    simp only [List.append_assoc, List.singleton_append, List.length_append,
      List.length_singleton] at hrec
    simp only [List.cons_append, List.length_cons, FindStateIndex_loop,
      ourvector_at_append_length, hs, if_false]
    rw [hrec]
    congr 2
    omega

/-- The search `FindStateIndex` returns -1 when no name matches. -/
theorem FindStateIndex_none (name : Str) (states : List State)
    (h : ∀ s ∈ states, StringToLower s.stateName ≠ StringToLower name) :
    FindStateIndex name states = .ok (-1) := by
  have := FindStateIndex_loop_none (StringToLower name) states [] h
  simpa [FindStateIndex] using this

/-- The search `FindStateIndex` returns the index of the first state whose lowercased name
equals the lowercased query. -/
theorem FindStateIndex_first (name : Str) (front : List State) (st : State)
    (back : List State)
    (hfront : ∀ s ∈ front, StringToLower s.stateName ≠ StringToLower name)
    (hst : StringToLower st.stateName = StringToLower name) :
    FindStateIndex name (front ++ st :: back) = .ok (front.length : Int) := by
  have := FindStateIndex_loop_first (StringToLower name) front st back [] _ rfl hfront hst
  simpa [FindStateIndex] using this

theorem set_append_length {α : Type} (u : List α) (a b : α) (v : List α) :
    (u ++ a :: v).set u.length b = u ++ b :: v := by
  induction u with
  | nil => rfl
  | cons x u ih => simp [List.set, ih]

theorem ourvector_at_int_append_length {α : Type} (u : List α) (a : α) (v : List α) :
    ourvector_at_int (u ++ a :: v) (u.length : Int) = .ok a := by
  simp [ourvector_at_int, ourvector_at_append_length]

/-- The first steps of `AppendEligibleVoters` on a two-field line whose count
is a decimal numeral in the `int` range: the registry is updated at the index
`FindStateIndex` returns, or left alone when that index is -1. -/
theorem AppendEligibleVoters_two_fields (states : List State) (name countText : Str)
    (count : Int) (hname : ',' ∉ name) (hdec : decimalNumeral? countText = some count)
    (hlo : INT_MIN ≤ count) (hhi : count ≤ INT_MAX) :
    AppendEligibleVoters (joinFields ',' [name, countText]) states
      = (FindStateIndex name states).bind fun stateIndex =>
          if stateIndex ≠ -1 then
            (ourvector_at_int states stateIndex).bind fun state =>
              .ok (states.set stateIndex.toNat { state with eligibleVoters := some count })
          else .ok states := by
  have hfree : ∀ f ∈ [name, countText], ',' ∉ f := by
    intro f hf
    simp only [List.mem_cons, List.mem_singleton, List.not_mem_nil, or_false] at hf
    rcases hf with rfl | rfl
    · exact hname
    · exact decimalNumeral_no_comma _ _ hdec
  have hsplit := SplitDelimiter_join ',' [name, countText] (List.cons_ne_nil _ _) hfree []
  have hext := extractInt_decimal [] countText [] count hdec hlo hhi (by simp) (by simp)
  simp only [List.nil_append, List.append_nil] at hext hsplit
  unfold AppendEligibleVoters
  rw [hsplit]
  simp only [Run.bind, ourvector_at, List.get?_cons_zero, List.get?_cons_succ,
    StringStream.ofStr, hext]

/-! ## C10: an eligible-voter line -/

/-- C10 (counterexample): `3000000000` is a decimal integer, but it does not
fit in `int`: the extraction stores `INT_MAX`, so the line
`Texas,3000000000` sets `eligibleVoters` of Texas to 2147483647, not to the
count. -/
theorem C10_counterexample :
    decimalNumeral? "3000000000".toList = some 3000000000
    ∧ AppendEligibleVoters "Texas,3000000000".toList
        [{ stateName := "Texas".toList
           democraticVotesPerDistrict := [600]
           republicanVotesPerDistrict := [400]
           eligibleVoters := none }]
      = .ok [{ stateName := "Texas".toList
               democraticVotesPerDistrict := [600]
               republicanVotesPerDistrict := [400]
               eligibleVoters := some 2147483647 }] := by
  decide

/-- C10 (amended): for every registry and every eligible-voter line
`name,count` with `name` free of commas and `count` a decimal numeral of an
integer that fits in `int`: if some region's name equals `name`
case-insensitively, `AppendEligibleVoters` sets `eligibleVoters` of the first
such region (the one `FindStateIndex` returns) to `count` and changes nothing
else; if no region matches, the registry is left unchanged. -/
theorem C10_AppendEligibleVoters (states : List State) (name countText : Str)
    (count : Int) (hname : ',' ∉ name) (hdec : decimalNumeral? countText = some count)
    (hlo : INT_MIN ≤ count) (hhi : count ≤ INT_MAX) :
    (∀ (front : List State) (st : State) (back : List State),
        states = front ++ st :: back →
        (∀ s ∈ front, StringToLower s.stateName ≠ StringToLower name) →
        StringToLower st.stateName = StringToLower name →
        FindStateIndex name states = .ok (front.length : Int)
        ∧ AppendEligibleVoters (joinFields ',' [name, countText]) states
          = .ok (front ++ { st with eligibleVoters := some count } :: back))
    ∧ ((∀ s ∈ states, StringToLower s.stateName ≠ StringToLower name) →
        FindStateIndex name states = .ok (-1)
        ∧ AppendEligibleVoters (joinFields ',' [name, countText]) states = .ok states) := by
  have hstep := AppendEligibleVoters_two_fields states name countText count hname hdec hlo hhi
  constructor
  · intro front st back hstates hfront hst
    subst hstates
    have hfind := FindStateIndex_first name front st back hfront hst
    refine ⟨hfind, ?_⟩
    rw [hstep, hfind]
    simp only [Run.bind]
    rw [if_pos (by omega), ourvector_at_int_append_length]
    simp only [Int.toNat_ofNat, set_append_length]
  · intro hnone
    have hfind := FindStateIndex_none name states hnone
    refine ⟨hfind, ?_⟩
    rw [hstep, hfind]
    simp only [Run.bind]
    rw [if_neg (by simp)]

/-- C10 (witness): after the Texas tally line has been ingested, the line
`Texas,1000000` sets `eligibleVoters = 1000000` on the region that
`FindStateIndex` returns for `texas`. -/
theorem C10_AppendEligibleVoters_witness :
    joinFields ',' ["Texas".toList, "1000000".toList] = "Texas,1000000".toList
    ∧ CreateAndAddState "Texas,1,600,400,2,300,700,3,500,500".toList [] 0
      = .ok [{ stateName := "Texas".toList
               democraticVotesPerDistrict := [600, 300, 500]
               republicanVotesPerDistrict := [400, 700, 500]
               eligibleVoters := none }]
    ∧ FindStateIndex "texas".toList
        [{ stateName := "Texas".toList
           democraticVotesPerDistrict := [600, 300, 500]
           republicanVotesPerDistrict := [400, 700, 500]
           eligibleVoters := none }] = .ok 0
    ∧ FindStateIndex "Texas".toList
        [{ stateName := "Texas".toList
           democraticVotesPerDistrict := [600, 300, 500]
           republicanVotesPerDistrict := [400, 700, 500]
           eligibleVoters := none }] = .ok 0
    ∧ AppendEligibleVoters (joinFields ',' ["Texas".toList, "1000000".toList])
        [{ stateName := "Texas".toList
           democraticVotesPerDistrict := [600, 300, 500]
           republicanVotesPerDistrict := [400, 700, 500]
           eligibleVoters := none }]
      = .ok [{ stateName := "Texas".toList
               democraticVotesPerDistrict := [600, 300, 500]
               republicanVotesPerDistrict := [400, 700, 500]
               eligibleVoters := some 1000000 }] :=
  ⟨by decide, by decide, by decide,
    ((C10_AppendEligibleVoters _ "Texas".toList "1000000".toList 1000000
        (by decide) (by decide) (by decide) (by decide)).1 [] _ [] rfl
        (by simp) rfl).1,
    ((C10_AppendEligibleVoters _ "Texas".toList "1000000".toList 1000000
        (by decide) (by decide) (by decide) (by decide)).1 [] _ [] rfl
        (by simp) rfl).2⟩

/-! ## C12: `FindStateIndex` -/

/-- A registry with a matching name splits at the first match. -/
theorem exists_first_match (target : Str) (states : List State)
    (h : ∃ s ∈ states, StringToLower s.stateName = target) :
    ∃ front st back, states = front ++ st :: back
      ∧ (∀ s ∈ front, StringToLower s.stateName ≠ target)
      ∧ StringToLower st.stateName = target := by
  induction states with
  | nil => simp at h
  | cons a rest ih =>
    by_cases ha : StringToLower a.stateName = target
    · exact ⟨[], a, rest, rfl, by simp, ha⟩
    · have hrest : ∃ s ∈ rest, StringToLower s.stateName = target := by
        obtain ⟨s, hs, hm⟩ := h
        rcases List.mem_cons.mp hs with rfl | hs
        · exact absurd hm ha
        · exact ⟨s, hs, hm⟩
      obtain ⟨front, st, back, hsplit, hfront, hst⟩ := ih hrest
      refine ⟨a :: front, st, back, by rw [hsplit]; rfl, ?_, hst⟩
      intro s hs
      rcases List.mem_cons.mp hs with rfl | hs
      · exact ha
      · exact hfront s hs

theorem get?_append_length {α : Type} (u : List α) (a : α) (v : List α) :
    (u ++ a :: v).get? u.length = some a := by
  induction u with
  | nil => rfl
  | cons b u ih => simpa using ih

theorem get?_append_of_lt {α : Type} (u v : List α) (j : Nat) (h : j < u.length) :
    (u ++ v).get? j = u.get? j := by
  induction u generalizing j with
  | nil => simp at h
  | cons b u ih =>
    cases j with
    | zero => rfl
    | succ j => simpa using ih j (by simpa using h)

theorem toLower_toUpper (c : Char) : c.toUpper.toLower = c.toLower := by
  by_cases h : c.toNat ≥ 97 ∧ c.toNat ≤ 122
  · have hc : c = Char.ofNat c.toNat := (Char.ofNat_toNat c).symm
    obtain ⟨h1, h2⟩ := h
    generalize c.toNat = n at hc h1 h2
    subst hc
    interval_cases n <;> decide
  · have : c.toUpper = c := by
      unfold Char.toUpper
      simp only [ge_iff_le]
      rw [if_neg h]
    rw [this]

theorem toNat_injective (a b : Char) (h : a.toNat = b.toNat) : a = b := by
  apply Char.ext
  exact UInt32.ext (by simpa [Char.toNat] using h)

theorem toLower_toNat_upper (c : Char) (h1 : 65 ≤ c.toNat) (h2 : c.toNat ≤ 90) :
    c.toLower.toNat = c.toNat + 32 := by
  have hc : c = Char.ofNat c.toNat := (Char.ofNat_toNat c).symm
  generalize c.toNat = n at hc h1 h2
  subst hc
  interval_cases n <;> decide

theorem toLower_of_not_upper (c : Char) (h : ¬ (65 ≤ c.toNat ∧ c.toNat ≤ 90)) :
    c.toLower = c := by
  unfold Char.toLower
  simp only [ge_iff_le]
  rw [if_neg h]

/-- Two characters have the same `tolower` exactly when they are the same
letter up to case. -/
theorem toLower_eq_iff (a b : Char) : a.toLower = b.toLower ↔ sameLetter a b := by
  unfold sameLetter
  by_cases ha : 65 ≤ a.toNat ∧ a.toNat ≤ 90
  · have hla := toLower_toNat_upper a ha.1 ha.2
    by_cases hb : 65 ≤ b.toNat ∧ b.toNat ≤ 90
    · have hlb := toLower_toNat_upper b hb.1 hb.2
      constructor
      · intro h
        left
        apply toNat_injective
        have := congrArg Char.toNat h
        omega
      · rintro (h | h | h)
        · rw [h]
        · omega
        · omega
    · have hlb := toLower_of_not_upper b hb
      constructor
      · intro h
        right; left
        have := congrArg Char.toNat h
        rw [hlb] at this
        exact ⟨ha.1, ha.2, by omega⟩
      · rintro (h | h | h)
        · rw [h]
        · apply toNat_injective
          rw [hlb]
          omega
        · omega
  · have hla := toLower_of_not_upper a ha
    by_cases hb : 65 ≤ b.toNat ∧ b.toNat ≤ 90
    · have hlb := toLower_toNat_upper b hb.1 hb.2
      constructor
      · intro h
        right; right
        have := congrArg Char.toNat h
        rw [hla] at this
        exact ⟨hb.1, hb.2, by omega⟩
      · rintro (h | h | h)
        · rw [h]
        · omega
        · apply toNat_injective
          rw [hla]
          omega
    · have hlb := toLower_of_not_upper b hb
      rw [hla, hlb]
      constructor
      · intro h
        exact Or.inl h
      · rintro (h | h | h)
        · exact h
        · omega
        · omega

/-- The lowercased forms of two strings are equal exactly when the strings are
equal up to letter case. -/
theorem StringToLower_eq_iff (x y : Str) :
    StringToLower x = StringToLower y ↔ sameName x y := by
  induction x generalizing y with
  | nil =>
    cases y with
    | nil => simp [StringToLower, sameName]
    | cons b y => simp [StringToLower, sameName]
  | cons a x ih =>
    cases y with
    | nil => simp [StringToLower, sameName]
    | cons b y =>
      have := ih y
      simp only [StringToLower, List.map_cons, List.cons.injEq, sameName] at this ⊢
      rw [toLower_eq_iff, this]

/-- C12: for every registry and query, `FindStateIndex` returns normally; the
result is -1 if and only if no region's name equals the query up to letter
case (equality of the whole strings: same length, same letters), and otherwise
it is the smallest index whose region's name does; two queries that differ
only in letter case get the same result.  On the registry holding `Texas`:
`texas` and `TEXAS` give 0; the prefix `Tex`, the extension `texarkana` and
`Ohio` give -1. -/
theorem C12_FindStateIndex (states : List State) (query : Str) :
    (∃ r : Int, FindStateIndex query states = .ok r
      ∧ (r = -1 ↔ ∀ s ∈ states, ¬ sameName s.stateName query)
      ∧ (r ≠ -1 → ∃ (k : Nat) (st : State), r = (k : Int) ∧ states.get? k = some st
          ∧ sameName st.stateName query
          ∧ ∀ (j : Nat) (s : State), j < k → states.get? j = some s →
              ¬ sameName s.stateName query))
    ∧ (∀ other : Str, sameName other query →
        FindStateIndex other states = FindStateIndex query states)
    ∧ FindStateIndex (query.map Char.toUpper) states = FindStateIndex query states
    ∧ FindStateIndex "texas".toList [texasState] = .ok 0
    ∧ FindStateIndex "TEXAS".toList [texasState] = .ok 0
    ∧ FindStateIndex "Tex".toList [texasState] = .ok (-1)
    ∧ FindStateIndex "texarkana".toList [texasState] = .ok (-1)
    ∧ FindStateIndex "Ohio".toList [texasState] = .ok (-1) := by
  refine ⟨?_, ?_, ?_, by decide, by decide, by decide, by decide, by decide⟩
  · by_cases h : ∃ s ∈ states, StringToLower s.stateName = StringToLower query
    · obtain ⟨front, st, back, rfl, hfront, hst⟩ := exists_first_match _ states h
      refine ⟨(front.length : Int), FindStateIndex_first query front st back hfront hst,
        ?_, ?_⟩
      · constructor
        · intro hneg
          omega
        · intro hnone
          exact absurd ((StringToLower_eq_iff _ _).mp hst) (hnone st (by simp))
      · intro _
        refine ⟨front.length, st, rfl, get?_append_length front st back,
          (StringToLower_eq_iff _ _).mp hst, ?_⟩
        intro j s hj hget
        rw [get?_append_of_lt front _ j hj] at hget
        exact fun hsame =>
          hfront s (List.get?_mem hget) ((StringToLower_eq_iff _ _).mpr hsame)
    · have hnone : ∀ s ∈ states, StringToLower s.stateName ≠ StringToLower query :=
        fun s hs hm => h ⟨s, hs, hm⟩
      exact ⟨-1, FindStateIndex_none query states hnone,
        ⟨fun _ s hs hsame => hnone s hs ((StringToLower_eq_iff _ _).mpr hsame),
          fun _ => rfl⟩,
        fun hne => absurd rfl hne⟩
  · intro other hother
    unfold FindStateIndex
    rw [(StringToLower_eq_iff _ _).mpr hother]
  · unfold FindStateIndex
    congr 1
    unfold StringToLower
    rw [List.map_map]
    apply List.map_congr_left
    intro c _
    exact toLower_toUpper c

/-! ## C16: one-character delimiters -/

/-- Every line is the join of fields free of `c`, one more than the
occurrences of `c` in the line. -/
theorem exists_fields (c : Char) (line : Str) :
    ∃ fields : List Str, fields ≠ [] ∧ (∀ f ∈ fields, c ∉ f)
      ∧ joinFields c fields = line ∧ fields.length = line.count c + 1 := by
  induction line with
  | nil => exact ⟨[[]], by simp, by simp, rfl, rfl⟩
  | cons x rest ih =>
    obtain ⟨fields, hne, hfree, hjoin, hlen⟩ := ih
    cases fields with
    | nil => exact absurd rfl hne
    | cons f fs =>
      by_cases hx : x = c
      · subst hx
        refine ⟨[] :: f :: fs, by simp, ?_, ?_, ?_⟩
        · intro g hg
          rcases List.mem_cons.mp hg with rfl | hg
          · simp
          · exact hfree g hg
        · simp only [joinFields, List.nil_append, hjoin]
        · simp only [List.length_cons, List.count_cons_self] at hlen ⊢
          omega
      · refine ⟨(x :: f) :: fs, by simp, ?_, ?_, ?_⟩
        · intro g hg
          rcases List.mem_cons.mp hg with rfl | hg
          · intro hmem
            rcases List.mem_cons.mp hmem with hc | hc
            · exact hx hc.symm
            · exact hfree f (List.mem_cons_self _ _) hc
          · exact hfree g (List.mem_cons_of_mem _ hg)
        · cases fs with
          | nil =>
            simp only [joinFields] at hjoin ⊢
            rw [hjoin]
          | cons g gs =>
            simp only [joinFields, List.cons_append] at hjoin ⊢
            rw [hjoin]
        · simp only [List.length_cons] at hlen ⊢
          rw [List.count_cons_of_ne (fun e => hx e.symm)]
          exact hlen

/-- The fields `SplitDelimiter` appends for a one-character delimiter. -/
theorem SplitDelimiter_singleton (c : Char) (line : Str) (splitLine : List Str) :
    ∃ fields : List Str,
      SplitDelimiter line splitLine [c] = .ok (splitLine ++ fields)
      ∧ fields.length = line.count c + 1
      ∧ (∀ f ∈ fields, c ∉ f)
      ∧ joinFields c fields = line := by
  obtain ⟨fields, hne, hfree, hjoin, hlen⟩ := exists_fields c line
  refine ⟨fields, ?_, hlen, hfree, hjoin⟩
  have := SplitDelimiter_join c fields hne hfree splitLine
  rw [hjoin] at this
  exact this

/-- C16: for every line and every one-character delimiter `c`,
`SplitDelimiter` returns normally (the fuel of the loop is never exhausted and
nothing is thrown) and appends exactly `(occurrences of c in the line) + 1`
fields, none of which contains `c`; joining these fields with `c` gives the
line back, so empty leading, trailing and interior fields are kept and nothing
is trimmed; a line without `c` yields the single field equal to the line. -/
theorem C16_SplitDelimiter_one_character (c : Char) (line : Str) (splitLine : List Str) :
    ∃ fields : List Str,
      SplitDelimiter line splitLine [c] = .ok (splitLine ++ fields)
      ∧ fields.length = line.count c + 1
      ∧ (∀ f ∈ fields, c ∉ f)
      ∧ joinFields c fields = line
      ∧ (c ∉ line → fields = [line]) := by
  obtain ⟨fields, hrun, hlen, hfree, hjoin⟩ := SplitDelimiter_singleton c line splitLine
  refine ⟨fields, hrun, hlen, hfree, hjoin, ?_⟩
  intro hc
  rw [List.count_eq_zero_of_not_mem hc] at hlen
  match fields, hlen, hjoin with
  | [f], _, hj =>
    simp only [joinFields] at hj
    rw [hj]

/-! ## General lemmas on `CreateAndAddState` -/

/-- A normal return of `CreateAndAddState` comes from a normal return of its
three steps, and the registry grows by the state the loop built. -/
theorem CreateAndAddState_ok_inv (data : Str) (states : List State) (temp : Int)
    (result : List State) (h : CreateAndAddState data states temp = .ok result) :
    ∃ splitData name st,
      SplitDelimiter data [] [','] = .ok splitData
      ∧ ourvector_at splitData 0 = .ok name
      ∧ CreateAndAddState_loop splitData splitData.length 1 temp
          { stateName := name
            democraticVotesPerDistrict := []
            republicanVotesPerDistrict := []
            eligibleVoters := none } = .ok st
      ∧ result = states ++ [st] := by
  unfold CreateAndAddState at h
  split at h
  · rename_i splitData hsplit
    split at h
    · rename_i name hname
      split at h
      · rename_i st hloop
        injection h with h
        exact ⟨splitData, name, st, hsplit, hname, hloop, h.symm⟩
      · exact absurd h (by simp)
      · exact absurd h (by simp)
    · exact absurd h (by simp)
    · exact absurd h (by simp)
  · exact absurd h (by simp)
  · exact absurd h (by simp)

/-- The loop of `CreateAndAddState` keeps the name and `eligibleVoters`, and
pushes onto both vote vectors in every round. -/
theorem CreateAndAddState_loop_inv (splitData : List Str) (n i : Nat) (temp : Int)
    (state st : State) (h : CreateAndAddState_loop splitData n i temp state = .ok st) :
    st.stateName = state.stateName ∧ st.eligibleVoters = state.eligibleVoters
      ∧ ∃ k : Nat,
          st.democraticVotesPerDistrict.length = state.democraticVotesPerDistrict.length + k
          ∧ st.republicanVotesPerDistrict.length
              = state.republicanVotesPerDistrict.length + k := by
  induction n generalizing i temp state with
  | zero =>
    unfold CreateAndAddState_loop at h
    split at h
    · exact absurd h (by simp)
    · injection h with h
      subst h
      exact ⟨rfl, rfl, 0, rfl, rfl⟩
  | succ n ih =>
    unfold CreateAndAddState_loop at h
    split at h
    · split at h
      · split at h
        · obtain ⟨h1, h2, k, h3, h4⟩ := ih _ _ _ h
          refine ⟨h1, h2, k + 1, ?_, ?_⟩
          · rw [h3]
            simp only [List.length_append, List.length_singleton]
            omega
          · rw [h4]
            simp only [List.length_append, List.length_singleton]
            omega
        · exact absurd h (by simp)
        · exact absurd h (by simp)
      · exact absurd h (by simp)
      · exact absurd h (by simp)
    · injection h with h
      subst h
      exact ⟨rfl, rfl, 0, rfl, rfl⟩

/-- A state appended by `CreateAndAddState` holds as many Democratic as
Republican tallies. -/
theorem CreateAndAddState_appends (data : Str) (states : List State) (temp : Int)
    (result : List State) (h : CreateAndAddState data states temp = .ok result) :
    ∃ st : State, result = states ++ [st]
      ∧ st.democraticVotesPerDistrict.length = st.republicanVotesPerDistrict.length
      ∧ st.eligibleVoters = none := by
  obtain ⟨splitData, name, st, _, _, hloop, hres⟩ :=
    CreateAndAddState_ok_inv data states temp result h
  obtain ⟨_, hv, k, hd, hr⟩ := CreateAndAddState_loop_inv _ _ _ _ _ _ hloop
  refine ⟨st, hres, ?_, hv⟩
  rw [hd, hr]

/-- Appending a state does not change the result of `FindStateIndex` for a
name that already matches an entry. -/
theorem FindStateIndex_append (name : Str) (states : List State) (st : State)
    (h : ∃ s ∈ states, StringToLower s.stateName = StringToLower name) :
    FindStateIndex name (states ++ [st]) = FindStateIndex name states := by
  obtain ⟨front, s, back, rfl, hfront, hs⟩ := exists_first_match _ states h
  rw [FindStateIndex_first name front s back hfront hs]
  have : front ++ s :: back ++ [st] = front ++ s :: (back ++ [st]) := by simp
  rw [this, FindStateIndex_first name front s (back ++ [st]) hfront hs]

/-! ## C17: no merge of duplicate names -/

/-- C17: for every registry and every tally line on which `CreateAndAddState`
returns normally, the registry afterwards is the old registry with exactly one
new `State` appended at the end, also when a region with the same name (up to
letter case) is already present: every old entry is still there, unchanged and
at its index, and `FindStateIndex` for a name that matched an old entry still
returns that earlier entry. -/
theorem C17_CreateAndAddState_appends_one (data : Str) (states : List State) (temp : Int)
    (result : List State) (h : CreateAndAddState data states temp = .ok result) :
    ∃ st : State, result = states ++ [st]
      ∧ result.length = states.length + 1
      ∧ (∀ (i : Nat) (s : State), states.get? i = some s → result.get? i = some s)
      ∧ (∀ name : Str,
          (∃ s ∈ states, StringToLower s.stateName = StringToLower name) →
          FindStateIndex name result = FindStateIndex name states) := by
  obtain ⟨st, hres, _, _⟩ := CreateAndAddState_appends data states temp result h
  subst hres
  refine ⟨st, rfl, by simp, ?_, ?_⟩
  · intro i s hi
    have hlt : i < states.length := by
      by_contra hge
      rw [List.get?_eq_none.mpr (by omega)] at hi
      exact absurd hi (by simp)
    rw [get?_append_of_lt states [st] i hlt]
    exact hi
  · intro name hname
    exact FindStateIndex_append name states st hname

/-- C17 (witness): a second Texas line ingested into a registry that
already holds Texas. -/
theorem C17_CreateAndAddState_appends_one_witness :
    CreateAndAddState "Texas,1,1,2".toList [texasState] 0 = .ok [texasState, texasAgain]
    ∧ ∃ st : State, [texasState, texasAgain] = [texasState] ++ [st]
      ∧ [texasState, texasAgain].length = [texasState].length + 1
      ∧ (∀ (i : Nat) (s : State),
          [texasState].get? i = some s → [texasState, texasAgain].get? i = some s)
      ∧ (∀ name : Str,
          (∃ s ∈ [texasState], StringToLower s.stateName = StringToLower name) →
          FindStateIndex name [texasState, texasAgain]
            = FindStateIndex name [texasState]) :=
  ⟨by decide,
    C17_CreateAndAddState_appends_one "Texas,1,1,2".toList [texasState] 0
      [texasState, texasAgain] (by decide)⟩

/-! ## C20: regions without a tied district -/

/-- Sums of the per-district terms over districts with non-negative tallies
and no tie. -/
theorem sums_no_tie (districts : List (Int × Int))
    (hnn : ∀ p ∈ districts, 0 ≤ p.1 ∧ 0 ≤ p.2) (hnt : ∀ p ∈ districts, p.1 ≠ p.2) :
    0 ≤ (districts.map specWastedDem).sum
      ∧ 0 ≤ (districts.map specWastedRep).sum
      ∧ (districts.map specWastedDem).sum + (districts.map specWastedRep).sum
          = (districts.map specVotes).sum
            - (districts.map fun p => (p.1 + p.2) / 2 + 1).sum
      ∧ 2 * ((districts.map specWastedDem).sum + (districts.map specWastedRep).sum)
            + districts.length
          ≤ (districts.map specVotes).sum := by
  induction districts with
  | nil => simp
  | cons p rest ih =>
    obtain ⟨h1, h2, h3, h4⟩ := ih (fun q hq => hnn q (List.mem_cons_of_mem _ hq))
      (fun q hq => hnt q (List.mem_cons_of_mem _ hq))
    obtain ⟨hd, hr⟩ := hnn p (List.mem_cons_self _ _)
    have hne : p.1 ≠ p.2 := hnt p (List.mem_cons_self _ _)
    simp only [List.map_cons, List.sum_cons, List.length_cons, Nat.cast_add, Nat.cast_one]
    unfold specWastedDem specWastedRep specVotes at *
    by_cases hlt : p.1 > p.2
    · simp only [hlt, if_true]
      refine ⟨by omega, by omega, by omega, by omega⟩
    · simp only [hlt, if_false]
      refine ⟨by omega, by omega, by omega, by omega⟩

/-- C20 (counterexample): the region with the single district
`(2147483647, 1)` has non-negative tallies, one district and no tie, but the
`int` sum `d + r` overflows: the call returns wastedDemocratic = -1073741826
and totalVotes = -2147483648, so neither `wastedDemocratic >= 0` nor
`2 * |wastedDemocratic - wastedRepublican| < totalVotes` holds. -/
theorem C20_counterexample :
    CalcWastedVotes (State.ofDistricts [] [(2147483647, 1)] none) 0 0 0
      = .ok { wastedDemocrat := -1073741826, wastedRepublican := 1,
              totalVotes := -2147483648 }
    ∧ ¬ (0 : Int) ≤ -1073741826
    ∧ ¬ 2 * |(-1073741826 : Int) - 1| < -2147483648 := by
  decide

/-- C20 (amended): for every region with non-negative tallies, at least one
district, no tied district and at most `INT_MAX = 2147483647` votes in all (so
that no `int` operation overflows), `CalcWastedVotes` (accumulators starting
at 0) returns normally with wastedDemocratic >= 0, wastedRepublican >= 0 and
wastedDemocratic + wastedRepublican = totalVotes - sum over the districts of
`floor((d+r)/2) + 1`; hence `2 * |wastedDemocratic - wastedRepublican| <
totalVotes`: the exact efficiency gap is strictly below 50 percent. -/
theorem C20_no_tie_bounds (name : Str) (voters : Option Int)
    (districts : List (Int × Int)) (hne : districts ≠ [])
    (hnn : ∀ p ∈ districts, 0 ≤ p.1 ∧ 0 ≤ p.2) (hnt : ∀ p ∈ districts, p.1 ≠ p.2)
    (htot : (districts.map specVotes).sum ≤ INT_MAX) :
    ∃ w : Wasted,
      CalcWastedVotes (State.ofDistricts name districts voters) 0 0 0 = .ok w
      ∧ 0 ≤ w.wastedDemocrat ∧ 0 ≤ w.wastedRepublican
      ∧ w.wastedDemocrat + w.wastedRepublican
          = w.totalVotes - (districts.map fun p => (p.1 + p.2) / 2 + 1).sum
      ∧ 2 * |w.wastedDemocrat - w.wastedRepublican| < w.totalVotes := by
  obtain ⟨h1, h2, h3, h4⟩ := sums_no_tie districts hnn hnt
  have hI : INT_MAX = 2147483647 := rfl
  rw [hI] at htot
  refine ⟨_, CalcWastedVotes_sums name voters districts hnn (by rw [hI]; exact htot)
    (by omega), h1, h2, h3, ?_⟩
  have hlen : 0 < districts.length := List.length_pos.mpr hne
  have habs : |(districts.map specWastedDem).sum - (districts.map specWastedRep).sum|
      ≤ (districts.map specWastedDem).sum + (districts.map specWastedRep).sum := by
    rw [abs_le]
    constructor <;> omega
  simp only
  omega

/-- C20 (witness): the region `(600,400), (300,700), (550,450)`. -/
theorem C20_no_tie_bounds_witness :
    ∃ w : Wasted,
      CalcWastedVotes
          (State.ofDistricts [] [(600, 400), (300, 700), (550, 450)] none) 0 0 0 = .ok w
      ∧ 0 ≤ w.wastedDemocrat ∧ 0 ≤ w.wastedRepublican
      ∧ w.wastedDemocrat + w.wastedRepublican
          = w.totalVotes
            - ([((600 : Int), (400 : Int)), (300, 700), (550, 450)].map
                fun p => (p.1 + p.2) / 2 + 1).sum
      ∧ 2 * |w.wastedDemocrat - w.wastedRepublican| < w.totalVotes :=
  C20_no_tie_bounds [] none [(600, 400), (300, 700), (550, 450)] (by decide) (by decide)
    (by decide) (by decide)

/-! ## The loop of `CreateAndAddState` and the number of fields -/

theorem ourvector_at_of_lt {α : Type} (v : List α) (j : Nat) (h : j < v.length) :
    ∃ a, ourvector_at v j = .ok a := by
  unfold ourvector_at
  rw [List.get?_eq_get h]
  exact ⟨_, rfl⟩

theorem ourvector_at_of_ge {α : Type} (v : List α) (j : Nat) (h : v.length ≤ j) :
    ourvector_at v j = .out_of_range := by
  unfold ourvector_at
  rw [List.get?_eq_none.mpr h]

/-- With enough fuel, the loop started at index `i` returns normally exactly
when the number of fields from `i` on is a multiple of 3, and then it has
pushed one pair per group of 3; otherwise an access is out of range. -/
theorem CreateAndAddState_loop_count (splitData : List Str) (n i : Nat) (temp : Int)
    (state : State) (hn : splitData.length ≤ i + 3 * n) :
    ((splitData.length - i) % 3 = 0 →
        ∃ st, CreateAndAddState_loop splitData n i temp state = .ok st
          ∧ st.stateName = state.stateName
          ∧ st.democraticVotesPerDistrict.length
              = state.democraticVotesPerDistrict.length + (splitData.length - i) / 3
          ∧ st.republicanVotesPerDistrict.length
              = state.republicanVotesPerDistrict.length + (splitData.length - i) / 3)
    ∧ ((splitData.length - i) % 3 ≠ 0 →
        CreateAndAddState_loop splitData n i temp state = .out_of_range) := by
  induction n generalizing i temp state with
  | zero =>
    have hge : ¬ i < splitData.length := by omega
    have hz : splitData.length - i = 0 := by omega
    constructor
    · intro _
      refine ⟨state, ?_, rfl, ?_, ?_⟩
      · simp only [CreateAndAddState_loop, hge, if_false]
      · rw [hz]; rfl
      · rw [hz]; rfl
    · intro h
      rw [hz] at h
      exact absurd rfl h
  | succ n ih =>
    by_cases hlt : i < splitData.length
    · by_cases h1 : i + 1 < splitData.length
      · by_cases h2 : i + 2 < splitData.length
        · obtain ⟨first, hfirst⟩ := ourvector_at_of_lt splitData (i + 1) h1
          obtain ⟨second, hsecond⟩ := ourvector_at_of_lt splitData (i + 2) h2
          have hrem : splitData.length - i = (splitData.length - (i + 3)) + 3 := by omega
          rw [CreateAndAddState_loop, if_pos hlt, hfirst, hsecond]
          simp only
          obtain ⟨ihok, ihbad⟩ := ih (i + 3)
            ((((StringStream.ofStr (first ++ ' ' :: second)).extractInt.1.extractInt).2).getD
              ((StringStream.ofStr (first ++ ' ' :: second)).extractInt.2.getD temp))
            { state with
              democraticVotesPerDistrict :=
                state.democraticVotesPerDistrict
                  ++ [(StringStream.ofStr (first ++ ' ' :: second)).extractInt.2.getD temp]
              republicanVotesPerDistrict :=
                state.republicanVotesPerDistrict
                  ++ [(((StringStream.ofStr (first ++ ' ' :: second)).extractInt.1.extractInt).2).getD
                      ((StringStream.ofStr (first ++ ' ' :: second)).extractInt.2.getD temp)] }
            (by omega)
          constructor
          · intro hmod
            obtain ⟨st, hst, hname, hd, hr⟩ := ihok (by omega)
            refine ⟨st, hst, hname, ?_, ?_⟩
            · rw [hd]
              simp only [List.length_append, List.length_singleton]
              omega
            · rw [hr]
              simp only [List.length_append, List.length_singleton]
              omega
          · intro hmod
            exact ihbad (by omega)
        · constructor
          · intro hmod
            omega
          · intro _
            obtain ⟨first, hfirst⟩ := ourvector_at_of_lt splitData (i + 1) h1
            rw [CreateAndAddState_loop, if_pos hlt, hfirst,
              ourvector_at_of_ge splitData (i + 2) (by omega)]
      · constructor
        · intro hmod
          omega
        · intro _
          rw [CreateAndAddState_loop, if_pos hlt,
            ourvector_at_of_ge splitData (i + 1) (by omega)]
    · have hz : splitData.length - i = 0 := by omega
      constructor
      · intro _
        refine ⟨state, ?_, rfl, ?_, ?_⟩
        · simp only [CreateAndAddState_loop, hlt, if_false]
        · rw [hz]; rfl
        · rw [hz]; rfl
      · intro h
        rw [hz] at h
        exact absurd rfl h

/-- The outcome of `CreateAndAddState` is decided by the number of commas of
the line alone. -/
theorem CreateAndAddState_by_count (data : Str) (states : List State) (temp : Int) :
    (data.count ',' % 3 = 0 →
        ∃ st : State, CreateAndAddState data states temp = .ok (states ++ [st])
          ∧ st.democraticVotesPerDistrict.length = data.count ',' / 3
          ∧ st.republicanVotesPerDistrict.length = data.count ',' / 3)
    ∧ (data.count ',' % 3 ≠ 0 → CreateAndAddState data states temp = .out_of_range) := by
  obtain ⟨fields, hsplit, hlen, _, _⟩ := SplitDelimiter_singleton ',' data []
  simp only [List.nil_append] at hsplit
  obtain ⟨name, hname⟩ := ourvector_at_of_lt fields 0 (by omega)
  obtain ⟨hok, hbad⟩ := CreateAndAddState_loop_count fields fields.length 1 temp
    { stateName := name
      democraticVotesPerDistrict := []
      republicanVotesPerDistrict := []
      eligibleVoters := none } (by omega)
  have hrem : fields.length - 1 = data.count ',' := by omega
  rw [hrem] at hok hbad
  constructor
  · intro hmod
    obtain ⟨st, hst, _, hd, hr⟩ := hok hmod
    refine ⟨st, ?_, by simpa using hd, by simpa using hr⟩
    unfold CreateAndAddState
    simp only [hsplit, hname, hst]
  · intro hmod
    unfold CreateAndAddState
    simp only [hsplit, hname, hbad hmod]

/-! ## Lemmas on `PlotDistrictData` -/

theorem PlotDistrictData_bar_eq (n : Nat) (k : Int) (hlo : INT_MIN + n ≤ k)
    (hhi : k ≤ INT_MAX) :
    PlotDistrictData_bar n k
      = List.replicate (min n k.toNat) 'D' ++ List.replicate (n - k.toNat) 'R' := by
  induction n generalizing k with
  | zero => simp [PlotDistrictData_bar]
  | succ n ih =>
    have hI : INT_MAX = 2147483647 := rfl
    have hJ : INT_MIN = -2147483648 := rfl
    rw [hI] at hhi
    rw [hJ] at hlo
    simp only [Nat.cast_add, Nat.cast_one] at hlo
    rw [PlotDistrictData_bar,
      wrapInt_of_fits (k - 1) (by rw [hJ]; omega) (by rw [hI]; omega),
      ih (k - 1) (by rw [hJ]; omega) (by rw [hI]; omega)]
    by_cases hk : k > 0
    · have h1 : min (n + 1) k.toNat = min n (k - 1).toNat + 1 := by omega
      have h2 : n + 1 - k.toNat = n - (k - 1).toNat := by omega
      rw [if_pos hk, h1, h2, List.replicate_succ, List.cons_append]
    · have h0 : k.toNat = 0 := by omega
      have h1 : (k - 1).toNat = 0 := by omega
      rw [if_neg hk, h0, h1]
      simp [List.replicate_succ]

/-- The truncated quotient computed in `double` is the integer quotient, for
non-negative tallies whose sum is positive and fits in `int`. -/
theorem demVoterRatio_eq (d r : Int) (hd : 0 ≤ d) (hr : 0 ≤ r) (hpos : 0 < d + r)
    (hfit : d + r ≤ INT_MAX) :
    Double.toInt
        (Double.div (Double.mul (.finite 100) (Double.ofInt d)) (Double.ofInt (d + r)))
      = 100 * d / (d + r) := by
  have hI : INT_MAX = 2147483647 := rfl
  rw [hI] at hfit
  have hd53 : d < 2 ^ 53 := by norm_num; omega
  have hs53 : d + r < 2 ^ 53 := by norm_num; omega
  have h100d53 : 100 * d < 2 ^ 53 := by norm_num; omega
  have hsq : (0 : ℚ) < ((d + r : ℤ) : ℚ) := Int.cast_pos.mpr hpos
  have hsle : ((d + r : ℤ) : ℚ) ≤ 2147483647 := by exact_mod_cast hfit
  have h100d : roundDouble ((100 : ℚ) * (d : ℚ)) = ((100 * d : ℤ) : ℚ) := by
    have := roundDouble_intCast (100 * d) (by omega) h100d53
    rw [← this]
    push_cast
    rfl
  have hk0 : 0 ≤ 100 * d / (d + r) := Int.ediv_nonneg (by omega) (by omega)
  have hmul1 : 100 * d / (d + r) * (d + r) ≤ 100 * d := Int.ediv_mul_le _ (ne_of_gt hpos)
  have hmul2 : 100 * d < (100 * d / (d + r) + 1) * (d + r) :=
    Int.lt_ediv_add_one_mul_self _ hpos
  have hk100 : 100 * d / (d + r) ≤ 100 := by
    by_contra hgt
    have h101 : 101 ≤ 100 * d / (d + r) := by omega
    have : 101 * (d + r) ≤ 100 * d / (d + r) * (d + r) :=
      Int.mul_le_mul_of_nonneg_right h101 (le_of_lt hpos)
    omega
  generalize 100 * d / (d + r) = k at hk0 hmul1 hmul2 hk100
  have hmul1q : (k : ℚ) * ((d + r : ℤ) : ℚ) ≤ ((100 * d : ℤ) : ℚ) := by exact_mod_cast hmul1
  have hmul2q : ((100 * d : ℤ) : ℚ) + 1 ≤ ((k : ℚ) + 1) * ((d + r : ℤ) : ℚ) := by
    have : 100 * d + 1 ≤ (k + 1) * (d + r) := by omega
    exact_mod_cast this
  have hkq0 : (0 : ℚ) ≤ (k : ℚ) := Int.cast_nonneg.mpr hk0
  have hkq100 : (k : ℚ) ≤ 100 := by exact_mod_cast hk100
  have hx0 : (0 : ℚ) ≤ ((100 * d : ℤ) : ℚ) / ((d + r : ℤ) : ℚ) :=
    div_nonneg (Int.cast_nonneg.mpr (by omega)) (le_of_lt hsq)
  -- lower bound
  have hlo : (k : ℚ) ≤ roundDouble (((100 * d : ℤ) : ℚ) / ((d + r : ℤ) : ℚ)) := by
    have hk : (k : ℚ) ≤ ((100 * d : ℤ) : ℚ) / ((d + r : ℤ) : ℚ) := by
      rw [le_div_iff₀ hsq]
      exact hmul1q
    have := roundDouble_mono_nonneg hkq0 hk
    rwa [roundDouble_intCast k hk0 (by norm_num; omega)] at this
  -- upper bound
  have hm0 : 0 < (k + 1) * 2 ^ 31 - 1 := by norm_num; omega
  have hm53 : (k + 1) * 2 ^ 31 - 1 < 2 ^ 53 := by norm_num; omega
  have hu : ((((k + 1) * 2 ^ 31 - 1 : ℤ) : ℚ)) * 2 ^ (-31 : ℤ) = (k : ℚ) + 1 - 2 ^ (-31 : ℤ) := by
    push_cast
    rw [sub_mul, mul_assoc]
    norm_num
  have hhi : roundDouble (((100 * d : ℤ) : ℚ) / ((d + r : ℤ) : ℚ))
      ≤ (k : ℚ) + 1 - 2 ^ (-31 : ℤ) := by
    have hx : ((100 * d : ℤ) : ℚ) / ((d + r : ℤ) : ℚ) ≤ (k : ℚ) + 1 - 2 ^ (-31 : ℤ) := by
      rw [div_le_iff₀ hsq, sub_mul]
      have h31 : (2 : ℚ) ^ (-31 : ℤ) * ((d + r : ℤ) : ℚ) ≤ 1 := by
        have : (2 : ℚ) ^ (-31 : ℤ) = 1 / 2147483648 := by norm_num
        rw [this]
        linarith
      linarith
    have := roundDouble_mono_nonneg hx0 hx
    rw [← hu, roundDouble_exact _ _ hm0 hm53, hu] at this
    exact this
  have hpow : (0 : ℚ) < 2 ^ (-31 : ℤ) := by norm_num
  unfold Double.ofInt
  rw [roundDouble_intCast d hd hd53, roundDouble_intCast (d + r) (le_of_lt hpos) hs53,
    Double.mul_finite, h100d, Double.div_finite _ _ (ne_of_gt hsq)]
  have hfl : ⌊roundDouble (((100 * d : ℤ) : ℚ) / ((d + r : ℤ) : ℚ))⌋ = k :=
    Int.floor_eq_iff.mpr ⟨hlo, by linarith⟩
  simp only [Double.toInt]
  rw [if_pos (le_trans hkq0 hlo), hfl, if_pos ⟨by unfold INT_MIN; omega, by rw [hI]; omega⟩]

/-- The bar written for a district with non-negative tallies whose sum fits in
`int` is the bar of the specification. -/
theorem PlotDistrictData_line_eq (p : Int × Int) (hd : 0 ≤ p.1) (hr : 0 ≤ p.2)
    (hfit : p.1 + p.2 ≤ INT_MAX) :
    PlotDistrictData_line p.1 p.2 = specBar p := by
  have hw : wrapInt (p.1 + p.2) = p.1 + p.2 :=
    wrapInt_of_fits _ (by unfold INT_MIN; omega) hfit
  unfold PlotDistrictData_line specBar
  rw [hw]
  by_cases hpos : p.1 + p.2 > 0
  · have hk0 : 0 ≤ 100 * p.1 / (p.1 + p.2) := Int.ediv_nonneg (by omega) (by omega)
    have hk100' : 100 * p.1 / (p.1 + p.2) ≤ 100 := by
      by_contra hgt
      have h101 : 101 ≤ 100 * p.1 / (p.1 + p.2) := by omega
      have h1 : 101 * (p.1 + p.2) ≤ 100 * p.1 / (p.1 + p.2) * (p.1 + p.2) :=
        Int.mul_le_mul_of_nonneg_right h101 (le_of_lt hpos)
      have h2 : 100 * p.1 / (p.1 + p.2) * (p.1 + p.2) ≤ 100 * p.1 :=
        Int.ediv_mul_le _ (ne_of_gt hpos)
      omega
    rw [if_pos hpos, if_pos hpos, demVoterRatio_eq p.1 p.2 hd hr hpos hfit,
      PlotDistrictData_bar_eq 100 _ (by unfold INT_MIN; omega) (by unfold INT_MAX; omega)]
    have hk100 : 100 * p.1 / (p.1 + p.2) ≤ 100 := by
      by_contra hgt
      have h101 : 101 ≤ 100 * p.1 / (p.1 + p.2) := by omega
      have h1 : 101 * (p.1 + p.2) ≤ 100 * p.1 / (p.1 + p.2) * (p.1 + p.2) :=
        Int.mul_le_mul_of_nonneg_right h101 (le_of_lt hpos)
      have h2 : 100 * p.1 / (p.1 + p.2) * (p.1 + p.2) ≤ 100 * p.1 :=
        Int.ediv_mul_le _ (ne_of_gt hpos)
      omega
    have hmin : min 100 (100 * p.1 / (p.1 + p.2)).toNat = (100 * p.1 / (p.1 + p.2)).toNat := by
      omega
    rw [hmin]
  · rw [if_neg hpos, if_neg hpos]

theorem PlotDistrictData_loop_eq (name : Str) (voters : Option Int)
    (rest done : List (Int × Int)) (out : List (Nat × Str))
    (h : ∀ p ∈ rest, 0 ≤ p.1 ∧ 0 ≤ p.2 ∧ p.1 + p.2 ≤ INT_MAX) :
    PlotDistrictData_loop (State.ofDistricts name (done ++ rest) voters)
        rest.length done.length out
      = .ok (out ++ specPlot done.length rest) := by
  induction rest generalizing done out with
  | nil => simp [PlotDistrictData_loop, specPlot]
  | cons p rest ih =>
    obtain ⟨hd, hr, hfit⟩ := h p (List.mem_cons_self _ _)
    have h1 : ourvector_at
        (State.ofDistricts name (done ++ p :: rest) voters).democraticVotesPerDistrict
        done.length = .ok p.1 := by
      have := ourvector_at_append_length (done.map Prod.fst) p.1 (rest.map Prod.fst)
      simpa [State.ofDistricts] using this
    have h2 : ourvector_at
        (State.ofDistricts name (done ++ p :: rest) voters).republicanVotesPerDistrict
        done.length = .ok p.2 := by
      have := ourvector_at_append_length (done.map Prod.snd) p.2 (rest.map Prod.snd)
      simpa [State.ofDistricts] using this
    have h3 := ih (done ++ [p]) (out ++ [(done.length + 1, PlotDistrictData_line p.1 p.2)])
      (fun q hq => h q (List.mem_cons_of_mem _ hq))
    simp only [List.append_assoc, List.singleton_append, List.length_append,
      List.length_singleton] at h3
    simp only [List.length_cons, PlotDistrictData_loop, h1, h2]
    rw [h3, PlotDistrictData_line_eq p hd hr hfit]
    simp [specPlot]

/-- The output of `PlotDistrictData` on a region with non-negative tallies
whose district totals fit in `int`. -/
theorem PlotDistrictData_eq (states : List State) (i : Int) (name : Str)
    (voters : Option Int) (districts : List (Int × Int))
    (h : ourvector_at_int states i = .ok (State.ofDistricts name districts voters))
    (hd : ∀ p ∈ districts, 0 ≤ p.1 ∧ 0 ≤ p.2 ∧ p.1 + p.2 ≤ INT_MAX) :
    PlotDistrictData i states = .ok (specPlot 0 districts) := by
  have := PlotDistrictData_loop_eq name voters districts [] [] hd
  simp only [List.nil_append, List.length_nil] at this
  unfold PlotDistrictData
  rw [h]
  simp only [Run.bind, ofDistricts_length]
  exact this

/-! ## C13: the bar of a district -/

/-- C13 (counterexample): the district `(2147483647, 1)` has non-negative
tallies and `d + r > 0`, but the `int` sum wraps to `-2147483648`, the test
`(demVotes + repVotes) > 0` fails and the bar is empty, where the claim gives
99 characters `D` and one `R`. -/
theorem C13_counterexample :
    PlotDistrictData 0 [State.ofDistricts [] [(2147483647, 1)] none] = .ok [(1, [])]
    ∧ (0 : Int) < 2147483647 + 1
    ∧ 100 * (2147483647 : Int) / (2147483647 + 1) = 99
    ∧ (specBar (2147483647, 1)).length = 100 := by
  decide

/-- C13 (amended): for every district with non-negative tallies `(d, r)` whose
sum `d + r` is at most `INT_MAX` (so that the `int` addition does not
overflow), the bar `PlotDistrictData` writes is, for `d + r > 0`, exactly `k`
characters `D` followed by `100 - k` characters `R` with
`k = floor(100 * d / (d + r))`, hence 100 characters with every `D` before
every `R`; for `d + r = 0` the bar is empty.  The districts are numbered from
1 in order. -/
theorem C13_PlotDistrictData_bar (states : List State) (i : Int) (name : Str)
    (voters : Option Int) (districts : List (Int × Int))
    (h : ourvector_at_int states i = .ok (State.ofDistricts name districts voters))
    (hd : ∀ p ∈ districts, 0 ≤ p.1 ∧ 0 ≤ p.2 ∧ p.1 + p.2 ≤ INT_MAX) :
    PlotDistrictData i states = .ok (specPlot 0 districts)
    ∧ (∀ p ∈ districts, 0 < p.1 + p.2 →
        PlotDistrictData_line p.1 p.2
            = List.replicate (100 * p.1 / (p.1 + p.2)).toNat 'D'
              ++ List.replicate (100 - (100 * p.1 / (p.1 + p.2)).toNat) 'R'
          ∧ (PlotDistrictData_line p.1 p.2).length = 100)
    ∧ (∀ p ∈ districts, p.1 + p.2 = 0 → PlotDistrictData_line p.1 p.2 = []) := by
  refine ⟨PlotDistrictData_eq states i name voters districts h hd, ?_, ?_⟩
  · intro p hp hpos
    obtain ⟨h1, h2, h3⟩ := hd p hp
    have hline := PlotDistrictData_line_eq p h1 h2 h3
    unfold specBar at hline
    rw [if_pos hpos] at hline
    refine ⟨hline, ?_⟩
    rw [hline]
    have hk100 : 100 * p.1 / (p.1 + p.2) ≤ 100 := by
      by_contra hgt
      have h101 : 101 ≤ 100 * p.1 / (p.1 + p.2) := by omega
      have e1 : 101 * (p.1 + p.2) ≤ 100 * p.1 / (p.1 + p.2) * (p.1 + p.2) :=
        Int.mul_le_mul_of_nonneg_right h101 (le_of_lt hpos)
      have e2 : 100 * p.1 / (p.1 + p.2) * (p.1 + p.2) ≤ 100 * p.1 :=
        Int.ediv_mul_le _ (ne_of_gt hpos)
      omega
    simp only [List.length_append, List.length_replicate]
    omega
  · intro p hp hz
    obtain ⟨h1, h2, h3⟩ := hd p hp
    have hline := PlotDistrictData_line_eq p h1 h2 h3
    unfold specBar at hline
    rw [if_neg (by omega)] at hline
    exact hline

/-- C13 (witness): the district `(0, 0)` gives the empty line and `(100, 0)`
gives 100 characters `D`. -/
theorem C13_PlotDistrictData_bar_witness :
    PlotDistrictData 0 [State.ofDistricts [] [(0, 0), (100, 0)] none]
      = .ok [(1, []), (2, List.replicate 100 'D')] :=
  (C13_PlotDistrictData_bar [State.ofDistricts [] [(0, 0), (100, 0)] none] 0 [] none
    [(0, 0), (100, 0)] (by decide) (by decide)).1

/-! ## C15: the primary source cannot be opened -/

/-- C15: if the primary (district-tally) source cannot be opened, `LoadFiles`
returns with `dataLoaded = false` and the registry unchanged (zero regions
when it started empty); the only `open` it attempts is the one on the primary
path, so the secondary source is neither opened nor read, and the message is
`Invalid first file, try again.` -/
theorem C15_primary_unavailable (fs : Str → Option (List Str)) (temp : Nat → Int)
    (dataLoaded : Bool) (command primary : Str) (others : List Str)
    (states : List State) (h : fs primary = none) :
    LoadFiles fs temp dataLoaded (command :: primary :: others) states
      = .ok { dataLoaded := false
              states := states
              log := [LoadEvent.tried primary, LoadEvent.invalidFirst] } := by
  simp [LoadFiles, LoadFiles_loop, ourvector_at, h]

/-- C15 (witness): loading `missing.txt` and `voters.txt` into the empty
registry in a file system without any file. -/
theorem C15_primary_unavailable_witness :
    LoadFiles (fun _ => none) (fun _ => 0) true
        ["load".toList, "missing.txt".toList, "voters.txt".toList] []
      = .ok { dataLoaded := false
              states := []
              log := [LoadEvent.tried "missing.txt".toList, LoadEvent.invalidFirst] } :=
  C15_primary_unavailable (fun _ => none) (fun _ => 0) true "load".toList
    "missing.txt".toList ["voters.txt".toList] [] rfl

/-! ## C14: the secondary source cannot be opened -/

/-- Reading the lines of the first file appends one state per line. -/
theorem LoadFiles_lines_first (temp : Nat → Int) (lines : List Str) (k : Nat)
    (states result : List State)
    (h : LoadFiles_lines 1 temp lines k states = .ok result) :
    ∃ added : List State, result = states ++ added ∧ added.length = lines.length := by
  induction lines generalizing k states with
  | nil =>
    simp only [LoadFiles_lines] at h
    injection h with h
    exact ⟨[], by simp [h], rfl⟩
  | cons line rest ih =>
    simp only [LoadFiles_lines, if_true] at h
    split at h
    · rename_i states' hcreate
      obtain ⟨st, hst, _, _⟩ := CreateAndAddState_appends line states (temp k) states' hcreate
      obtain ⟨added, hadded, hlen⟩ := ih (k + 1) states' h
      refine ⟨st :: added, ?_, by simp [hlen]⟩
      rw [hadded, hst]
      simp
    · exact absurd h (by simp)
    · exact absurd h (by simp)

/-- C14 (counterexample): with `districts.txt` readable and `voters.txt`
missing, `LoadFiles` on the empty registry reports the failure but leaves
Texas, read from the primary source, in the registry. -/
theorem C14_counterexample :
    LoadFiles onlyDistricts (fun _ => 0) false
        ["load".toList, "districts.txt".toList, "voters.txt".toList] []
      = .ok { dataLoaded := false
              states := [texasState]
              log := [LoadEvent.tried "districts.txt".toList,
                      LoadEvent.reading "districts.txt".toList,
                      LoadEvent.tried "voters.txt".toList,
                      LoadEvent.invalidSecond] }
    ∧ [texasState] ≠ ([] : List State) := by
  decide

/-- C14 (amended): if the secondary (eligible-voter) source cannot be opened
while the primary source can be opened and read, `LoadFiles` reports the load
as failed (`dataLoaded = false`, message `Invalid second file, try again.`)
and the registry keeps what the primary source added: it is the registry
before the call followed by one region per line of the primary source. -/
theorem C14_secondary_unavailable (fs : Str → Option (List Str)) (temp : Nat → Int)
    (dataLoaded : Bool) (command primary secondary : Str) (lines : List Str)
    (states states' : List State)
    (hprimary : fs primary = some lines) (hsecondary : fs secondary = none)
    (hread : LoadFiles_lines 1 temp lines 0 states = .ok states') :
    LoadFiles fs temp dataLoaded [command, primary, secondary] states
      = .ok { dataLoaded := false
              states := states'
              log := [LoadEvent.tried primary, LoadEvent.reading primary,
                      LoadEvent.tried secondary, LoadEvent.invalidSecond] }
    ∧ ∃ added : List State, states' = states ++ added ∧ added.length = lines.length := by
  refine ⟨?_, LoadFiles_lines_first temp lines 0 states states' hread⟩
  simp [LoadFiles, LoadFiles_loop, ourvector_at, hprimary, hsecondary, hread]

/-- C14 (witness): the file system with `districts.txt` only. -/
theorem C14_secondary_unavailable_witness :
    LoadFiles onlyDistricts (fun _ => 0) true
        ["load".toList, "districts.txt".toList, "voters.txt".toList] [texasAgain]
      = .ok { dataLoaded := false
              states := [texasAgain, texasState]
              log := [LoadEvent.tried "districts.txt".toList,
                      LoadEvent.reading "districts.txt".toList,
                      LoadEvent.tried "voters.txt".toList,
                      LoadEvent.invalidSecond] }
    ∧ ∃ added : List State, [texasAgain, texasState] = [texasAgain] ++ added
        ∧ added.length = ["Texas,1,600,400,2,300,700,3,500,500".toList].length :=
  C14_secondary_unavailable onlyDistricts (fun _ => 0) true "load".toList
    "districts.txt".toList "voters.txt".toList
    ["Texas,1,600,400,2,300,700,3,500,500".toList] [texasAgain] [texasAgain, texasState]
    (by decide) (by decide) (by decide)

/-! ## C11: vote fields that are not integers -/

/-- C11 (counterexample): in the line `Texas,1,abc,400` the vote field `abc`
is not an integer, yet `CreateAndAddState` returns normally and appends Texas
with the district `(0, 0)`: the failed extraction writes 0 and the second
extraction is skipped. -/
theorem C11_counterexample :
    decimalNumeral? "abc".toList = none
    ∧ CreateAndAddState "Texas,1,abc,400".toList [] 7
      = .ok [{ stateName := "Texas".toList
               democraticVotesPerDistrict := [0]
               republicanVotesPerDistrict := [0]
               eligibleVoters := none }] := by
  decide

/-- C11 (amended): `CreateAndAddState` has no malformed-record error.  For
every tally line whose number of comma-separated fields is `3n + 1` (the
number of commas is a multiple of 3), whatever the vote fields hold (integers
or not), it returns normally and appends one region with `n` districts. -/
theorem C11_no_malformed_record_error (data : Str) (states : List State) (temp : Int)
    (h : data.count ',' % 3 = 0) :
    ∃ st : State, CreateAndAddState data states temp = .ok (states ++ [st])
      ∧ st.democraticVotesPerDistrict.length = data.count ',' / 3
      ∧ st.republicanVotesPerDistrict.length = data.count ',' / 3 :=
  (CreateAndAddState_by_count data states temp).1 h

/-- C11 (witness): the line `Texas,1,abc,400,2,,x y`, none of whose vote
fields but `400` is an integer. -/
theorem C11_no_malformed_record_error_witness :
    "Texas,1,abc,400,2,,x y".toList.count ',' % 3 = 0
    ∧ ∃ st : State,
        CreateAndAddState "Texas,1,abc,400,2,,x y".toList [texasState] 7
          = .ok ([texasState] ++ [st])
        ∧ st.democraticVotesPerDistrict.length
            = "Texas,1,abc,400,2,,x y".toList.count ',' / 3
        ∧ st.republicanVotesPerDistrict.length
            = "Texas,1,abc,400,2,,x y".toList.count ',' / 3 :=
  ⟨by decide,
    C11_no_malformed_record_error "Texas,1,abc,400,2,,x y".toList [texasState] 7
      (by decide)⟩

/-! ## C19: the number of fields -/

/-- C19: for every tally line, with `splitData` the comma-separated fields,
`CreateAndAddState` returns normally (all accesses `splitData.at(i + 1)` and
`splitData.at(i + 2)` in bounds, one `State` pushed) if and only if
`splitData.size()` is congruent to 1 modulo 3; otherwise an access is out of
range and the exception leaves the function before the `push_back`, so no
registry is produced: the caller's registry is as before.  Examples are
`Texas,1` and `Texas,1,600`. -/
theorem C19_field_count (data : Str) (states : List State) (temp : Int) :
    ∃ splitData : List Str,
      SplitDelimiter data [] [','] = .ok splitData
      ∧ ((∃ st : State, CreateAndAddState data states temp = .ok (states ++ [st]))
          ↔ splitData.length % 3 = 1)
      ∧ ((∃ result, CreateAndAddState data states temp = .ok result)
          ↔ splitData.length % 3 = 1)
      ∧ (splitData.length % 3 ≠ 1 →
          CreateAndAddState data states temp = .out_of_range)
      ∧ CreateAndAddState "Texas,1".toList states temp = .out_of_range
      ∧ CreateAndAddState "Texas,1,600".toList states temp = .out_of_range := by
  obtain ⟨fields, hsplit, hlen, _, _⟩ := SplitDelimiter_singleton ',' data []
  simp only [List.nil_append] at hsplit
  obtain ⟨hok, hbad⟩ := CreateAndAddState_by_count data states temp
  refine ⟨fields, hsplit, ?_, ?_, ?_, ?_, ?_⟩
  · constructor
    · rintro ⟨st, hst⟩
      by_contra hmod
      rw [hbad (by omega)] at hst
      exact absurd hst (by simp)
    · intro hmod
      obtain ⟨st, hst, _, _⟩ := hok (by omega)
      exact ⟨st, hst⟩
  · constructor
    · rintro ⟨result, hres⟩
      by_contra hmod
      rw [hbad (by omega)] at hres
      exact absurd hres (by simp)
    · intro hmod
      obtain ⟨st, hst, _, _⟩ := hok (by omega)
      exact ⟨_, hst⟩
  · intro hmod
    exact hbad (by omega)
  · exact (CreateAndAddState_by_count "Texas,1".toList states temp).2 (by decide)
  · exact (CreateAndAddState_by_count "Texas,1,600".toList states temp).2 (by decide)

/-! ## C18: the two vote vectors have the same length -/

/-- A state whose vote vectors have the same length is the state of its
district pairs. -/
theorem State.eq_ofDistricts (s : State)
    (h : s.democraticVotesPerDistrict.length = s.republicanVotesPerDistrict.length) :
    s = State.ofDistricts s.stateName
          (s.democraticVotesPerDistrict.zip s.republicanVotesPerDistrict) s.eligibleVoters := by
  cases s with
  | mk name dem rep voters =>
    simp only [State.ofDistricts, State.mk.injEq, true_and, and_true]
    simp only at h
    exact ⟨(List.map_fst_zip dem rep (by omega)).symm,
      (List.map_snd_zip dem rep (by omega)).symm⟩

/-- The loop of `PlotDistrictData` returns normally on the state of a list of
district pairs. -/
theorem PlotDistrictData_loop_ok (name : Str) (voters : Option Int)
    (rest done : List (Int × Int)) (out : List (Nat × Str)) :
    ∃ res, PlotDistrictData_loop (State.ofDistricts name (done ++ rest) voters)
        rest.length done.length out = .ok res := by
  induction rest generalizing done out with
  | nil => exact ⟨out, rfl⟩
  | cons p rest ih =>
    have h1 : ourvector_at
        (State.ofDistricts name (done ++ p :: rest) voters).democraticVotesPerDistrict
        done.length = .ok p.1 := by
      have := ourvector_at_append_length (done.map Prod.fst) p.1 (rest.map Prod.fst)
      simpa [State.ofDistricts] using this
    have h2 : ourvector_at
        (State.ofDistricts name (done ++ p :: rest) voters).republicanVotesPerDistrict
        done.length = .ok p.2 := by
      have := ourvector_at_append_length (done.map Prod.snd) p.2 (rest.map Prod.snd)
      simpa [State.ofDistricts] using this
    obtain ⟨res, h3⟩ := ih (done ++ [p])
      (out ++ [(done.length + 1, PlotDistrictData_line p.1 p.2)])
    simp only [List.append_assoc, List.singleton_append, List.length_append,
      List.length_singleton] at h3
    refine ⟨res, ?_⟩
    simp only [List.length_cons, PlotDistrictData_loop, h1, h2]
    exact h3

/-- A normal return of `AppendEligibleVoters` leaves the vote vectors of every
registry entry as they were. -/
theorem AppendEligibleVoters_vectors (line : Str) (states result : List State)
    (h : AppendEligibleVoters line states = .ok result) :
    ∀ s' ∈ result, ∃ s ∈ states,
      s'.democraticVotesPerDistrict = s.democraticVotesPerDistrict
      ∧ s'.republicanVotesPerDistrict = s.republicanVotesPerDistrict := by
  unfold AppendEligibleVoters at h
  cases hsplit : SplitDelimiter line [] [','] with
  | out_of_range => rw [hsplit] at h; exact absurd h (by simp [Run.bind])
  | fuel => rw [hsplit] at h; exact absurd h (by simp [Run.bind])
  | ok splitLine =>
    rw [hsplit] at h
    simp only [Run.bind] at h
    cases hname : ourvector_at splitLine 0 with
    | out_of_range => rw [hname] at h; exact absurd h (by simp)
    | fuel => rw [hname] at h; exact absurd h (by simp)
    | ok name =>
      rw [hname] at h
      simp only at h
      cases hfind : FindStateIndex name states with
      | out_of_range => rw [hfind] at h; exact absurd h (by simp)
      | fuel => rw [hfind] at h; exact absurd h (by simp)
      | ok stateIndex =>
        rw [hfind] at h
        simp only at h
        cases hfield : ourvector_at splitLine 1 with
        | out_of_range => rw [hfield] at h; exact absurd h (by simp)
        | fuel => rw [hfield] at h; exact absurd h (by simp)
        | ok field =>
          rw [hfield] at h
          simp only at h
          by_cases hidx : stateIndex ≠ -1
          · rw [if_pos hidx] at h
            cases hat : ourvector_at_int states stateIndex with
            | out_of_range => rw [hat] at h; exact absurd h (by simp)
            | fuel => rw [hat] at h; exact absurd h (by simp)
            | ok state =>
              rw [hat] at h
              simp only at h
              injection h with h
              subst h
              have hmem : state ∈ states := by
                unfold ourvector_at_int at hat
                split at hat
                · unfold ourvector_at at hat
                  split at hat
                  · rename_i a hget
                    injection hat with hat
                    subst hat
                    exact List.get?_mem hget
                  · exact absurd hat (by simp)
                · exact absurd hat (by simp)
              intro s' hs'
              rcases List.mem_or_eq_of_mem_set hs' with hold | hnew
              · exact ⟨s', hold, rfl, rfl⟩
              · exact ⟨state, hmem, by rw [hnew], by rw [hnew]⟩
          · rw [if_neg hidx] at h
            injection h with h
            subst h
            intro s' hs'
            exact ⟨s', hs', rfl, rfl⟩

/-- In a reachable registry the two vote vectors of every state have the same
length. -/
theorem Reachable.same_length {states : List State} (h : Reachable states) :
    ∀ s ∈ states,
      s.democraticVotesPerDistrict.length = s.republicanVotesPerDistrict.length := by
  induction h with
  | empty => simp
  | create states data temp result _ hcreate ih =>
    obtain ⟨st, hres, hlen, _⟩ := CreateAndAddState_appends data states temp result hcreate
    subst hres
    intro s hs
    rcases List.mem_append.mp hs with hold | hnew
    · exact ih s hold
    · rw [List.mem_singleton.mp hnew]
      exact hlen
  | append states line result _ happend ih =>
    intro s' hs'
    obtain ⟨s, hs, hd, hr⟩ := AppendEligibleVoters_vectors line states result happend s' hs'
    rw [hd, hr]
    exact ih s hs

/-- C18: in every registry reachable from the empty registry by calls of
`CreateAndAddState` and `AppendEligibleVoters`, every `State` has
`democraticVotesPerDistrict` and `republicanVotesPerDistrict` of the same
length; hence every access `republicanVotesPerDistrict.at(i)` with `i` below
`democraticVotesPerDistrict.size()` is in range, and `CalcWastedVotes` and
`PlotDistrictData` return normally on every entry. -/
theorem C18_vote_vectors_same_length (states : List State) (h : Reachable states) :
    (∀ s ∈ states,
        s.democraticVotesPerDistrict.length = s.republicanVotesPerDistrict.length)
    ∧ (∀ s ∈ states, ∀ i : Nat, i < s.democraticVotesPerDistrict.length →
        ∃ v, ourvector_at s.republicanVotesPerDistrict i = .ok v)
    ∧ (∀ s ∈ states, ∀ a b c : Int, ∃ w, CalcWastedVotes s a b c = .ok w)
    ∧ (∀ (i : Int) (s : State), ourvector_at_int states i = .ok s →
        ∃ out, PlotDistrictData i states = .ok out) := by
  have hlen := Reachable.same_length h
  refine ⟨hlen, ?_, ?_, ?_⟩
  · intro s hs i hi
    exact ourvector_at_of_lt _ i (by rw [← hlen s hs]; exact hi)
  · intro s hs a b c
    rw [State.eq_ofDistricts s (hlen s hs)]
    exact ⟨_, CalcWastedVotes_ofDistricts _ _ _ a b c⟩
  · intro i s hat
    have hmem : s ∈ states := by
      unfold ourvector_at_int at hat
      split at hat
      · unfold ourvector_at at hat
        split at hat
        · rename_i a hget
          injection hat with hat
          subst hat
          exact List.get?_mem hget
        · exact absurd hat (by simp)
      · exact absurd hat (by simp)
    obtain ⟨res, hres⟩ := PlotDistrictData_loop_ok s.stateName s.eligibleVoters
      (s.democraticVotesPerDistrict.zip s.republicanVotesPerDistrict) [] []
    simp only [List.nil_append, List.length_nil] at hres
    rw [← State.eq_ofDistricts s (hlen s hmem)] at hres
    refine ⟨res, ?_⟩
    unfold PlotDistrictData
    rw [hat]
    simp only [Run.bind]
    have hz : (s.democraticVotesPerDistrict.zip s.republicanVotesPerDistrict).length
        = s.democraticVotesPerDistrict.length := by
      rw [List.length_zip, hlen s hmem, min_self]
    rw [← hz]
    exact hres

/-- C18 (witness): the registry after the Texas tally line and the line
`Texas,1000000`. -/
theorem C18_vote_vectors_same_length_witness :
    Reachable [{ texasState with eligibleVoters := some 1000000 }]
    ∧ (∀ s ∈ [{ texasState with eligibleVoters := some 1000000 }],
        s.democraticVotesPerDistrict.length = s.republicanVotesPerDistrict.length)
    ∧ (∀ s ∈ [{ texasState with eligibleVoters := some 1000000 }],
        ∀ i : Nat, i < s.democraticVotesPerDistrict.length →
        ∃ v, ourvector_at s.republicanVotesPerDistrict i = .ok v)
    ∧ (∀ s ∈ [{ texasState with eligibleVoters := some 1000000 }],
        ∀ a b c : Int, ∃ w, CalcWastedVotes s a b c = .ok w)
    ∧ (∀ (i : Int) (s : State),
        ourvector_at_int [{ texasState with eligibleVoters := some 1000000 }] i = .ok s →
        ∃ out, PlotDistrictData i
          [{ texasState with eligibleVoters := some 1000000 }] = .ok out) :=
  ⟨Reachable.append [texasState] "Texas,1000000".toList _
      (Reachable.create [] "Texas,1,600,400,2,300,700,3,500,500".toList 0 _
        Reachable.empty (by decide : _ = Run.ok [texasState]))
      (by decide),
    C18_vote_vectors_same_length _
      (Reachable.append [texasState] "Texas,1000000".toList _
        (Reachable.create [] "Texas,1,600,400,2,300,700,3,500,500".toList 0 _
          Reachable.empty (by decide : _ = Run.ok [texasState]))
        (by decide))⟩

end Gerrymandering
